import Mathlib

/-!
# Verification of the gnome multi-source sync engine

A shallow embedding of the synchronization core of the gnome project:
the SQLite-backed ledger (`src/database/models.py`), the per-source sync
algorithm (`src/sync_engine/base_sync.py`), the orchestrator
(`src/sync_engine/sync_manager.py`), the coordinator
(`src/sync_engine/sync_coordinator.py`), the Google Drive page-fetch retry
loop (`src/sync_engine/gdrive_sync.py`) and the local-folder scanner
(`src/sync_engine/finder_sync.py`).

External effects (embedding service, vector store, network, disk) are
modelled by explicit environments that fix the outcome of each external
call; database rows are modelled as lists of records with the operations
translated statement-by-statement from the SQL in `models.py`.
-/

deriving instance DecidableEq for Except

namespace Gnome

/-- One row of the `files` table (`models.py`, `init_schema`).  Only the
columns the sync engine reads or writes are carried; `file_hash` is
declared `UNIQUE` over *all* rows (deleted ones included) in the schema,
which is reflected in `Db.addFile` below. -/
structure FileRow where
  filename : String
  filePath : String
  source : String
  fileHash : String
  isDeleted : Bool
  deriving DecidableEq

/-- One row of the `sync_state` table (`source` is the primary key). -/
structure SyncStateRow where
  source : String
  status : String
  errorMessage : Option String
  enabled : Bool
  deriving DecidableEq

/-- The ledger state: `files`, `sync_state` and `oauth_tokens` tables.
(`embeddings` and `watched_folders` are not touched by the claims about
the ledger; watched folders enter through the scanner environment.) -/
structure Db where
  files : List FileRow
  syncStates : List SyncStateRow
  oauthTokens : List (String × String)
  deriving DecidableEq

def emptyDb : Db := ⟨[], [], []⟩

/-- `get_file_by_hash`: `SELECT * FROM files WHERE file_hash = ? AND is_deleted = 0`. -/
def Db.getFileByHash (db : Db) (h : String) : Option FileRow :=
  db.files.find? (fun r => r.fileHash == h && !r.isDeleted)

/-- `get_files_by_source`: `SELECT * FROM files WHERE source = ? AND is_deleted = 0`. -/
def Db.getFilesBySource (db : Db) (src : String) : List FileRow :=
  db.files.filter (fun r => r.source == src && !r.isDeleted)

/-- `add_file`: `INSERT OR IGNORE INTO files ...`.  Because `file_hash` is
`UNIQUE` over the whole table, the insert is silently ignored whenever any
row — active or soft-deleted — already carries the same hash. -/
def Db.addFile (db : Db) (filename filePath source fileHash : String) : Db :=
  if db.files.any (fun r => r.fileHash == fileHash) then db
  else { db with files := db.files ++ [⟨filename, filePath, source, fileHash, false⟩] }

/-- Upsert on the `sync_state` table keyed by `source`: the conflicting row
has `last_sync, status, cursor, error_message` replaced while `enabled` is
left untouched; a fresh row gets the schema default `enabled = 1`. -/
def upsertState : List SyncStateRow → String → String → Option String → List SyncStateRow
  | [], src, status, err => [⟨src, status, err, true⟩]
  | st :: rest, src, status, err =>
    if st.source == src then { st with status := status, errorMessage := err } :: rest
    else st :: upsertState rest src status err

/-- `update_sync_state` (`models.py`). -/
def Db.updateSyncState (db : Db) (src status : String) (err : Option String) : Db :=
  { db with syncStates := upsertState db.syncStates src status err }

/-- `get_sync_state`: `SELECT * FROM sync_state WHERE source = ?`. -/
def Db.getSyncState (db : Db) (src : String) : Option SyncStateRow :=
  db.syncStates.find? (fun st => st.source == src)

/-- `delete_oauth_token`. -/
def Db.deleteOauthToken (db : Db) (service : String) : Db :=
  { db with oauthTokens := db.oauthTokens.filter (fun t => t.1 ≠ service) }

/-- `get_oauth_token`. -/
def Db.getOauthToken (db : Db) (service : String) : Option (String × String) :=
  db.oauthTokens.find? (fun t => t.1 == service)

/-- The enabled check of `sync_all`:
`if sync_state and not sync_state.get('enabled', True)` — a source with no
`sync_state` row counts as enabled. -/
def Db.sourceEnabled (db : Db) (src : String) : Bool :=
  match db.getSyncState src with
  | none => true
  | some st => st.enabled

/-- The per-source entry of `SyncManager.get_sync_status`: sources without
a `sync_state` row are reported as `never_synced`. -/
def Db.statusOf (db : Db) (src : String) : String :=
  match db.getSyncState src with
  | none => "never_synced"
  | some st => st.status

/-- A file descriptor as produced by an adapter's `fetch_files`
(`filename`, `file_path`, optional precomputed `file_hash`,
`last_modified`). -/
structure FileInfo where
  filename : String
  filePath : String
  fileHash : Option String
  lastModified : Int
  deriving DecidableEq

/-- Outcomes of the external calls made by `BaseSyncEngine.index_file`:
whether `is_supported_file` accepts the file, whether `process_file`
(embedding) returns, and whether the Pinecone `upsert` returns. -/
structure IndexEnv where
  supported : Bool
  embedOk : Bool
  upsertOk : Bool
  deriving DecidableEq

/-- External calls attempted during one file's processing. -/
inductive Action where
  | download
  | embed
  | upsert
  | addFile
  deriving DecidableEq

/-- `BaseSyncEngine.index_file` (`base_sync.py` lines 150-231).  The body is
one `try`: an unsupported type returns `False` before any external call; an
exception from `process_file` or from the vector upsert is caught and
yields `False`; only after the upsert has returned does `db.add_file` run,
with the descriptor's hash (or the hash computed from the downloaded
bytes, supplied by the environment as `computedHash`).  The returned list
records which external calls were attempted, in order. -/
def indexFile (ie : IndexEnv) (db : Db) (src : String) (fi : FileInfo)
    (computedHash : String) : Bool × Db × List Action :=
  if !ie.supported then (false, db, [])
  else if !ie.embedOk then (false, db, [.embed])
  else if !ie.upsertOk then (false, db, [.embed, .upsert])
  else
    let h := fi.fileHash.getD computedHash
    (true, db.addFile fi.filename fi.filePath src h, [.embed, .upsert, .addFile])

/-- Environment for one iteration of the sync loop: whether the loop body
raises (caught by the per-file handler), whether `download_file` returns a
path, and the `index_file` environment. -/
structure PerFileEnv where
  raises : Bool
  downloadOk : Bool
  indexEnv : IndexEnv
  computedHash : String

/-- `file_hash and self.db.get_file_by_hash(file_hash)` (`base_sync.py` line 96). -/
def hashHit (db : Db) (fi : FileInfo) : Bool :=
  match fi.fileHash with
  | some h => (db.getFileByHash h).isSome
  | none => false

/-- The `existing` lookup of `base_sync.py` lines 101-102: a non-deleted row
of the same source with the same filename. -/
def filenameHit (db : Db) (src : String) (fi : FileInfo) : Bool :=
  (db.getFilesBySource src).any (fun r => r.filename == fi.filename && !r.isDeleted)

def skipEligible (db : Db) (src : String) (fi : FileInfo) : Bool :=
  hashHit db fi || filenameHit db src fi

inductive FileOutcome where
  | indexedF
  | skippedF
  | erroredF
  deriving DecidableEq

/-- One iteration of the `for` loop of `BaseSyncEngine.sync` (lines 92-133).
An exception anywhere in the body reaches the per-file handler and counts
as an error (the only ledger write in the body, `add_file` inside
`index_file`, never propagates an exception).  A hash hit skips; a
non-deleted same-source same-filename row skips — in the source both the
equal-hash and the "modified" sub-branch skip; a failed download or a
`False` from `index_file` counts as an error. -/
def processFile (pe : PerFileEnv) (src : String) (db : Db) (fi : FileInfo) :
    FileOutcome × Db × List Action :=
  if pe.raises then (.erroredF, db, [])
  else if hashHit db fi then (.skippedF, db, [])
  else if filenameHit db src fi then (.skippedF, db, [])
  else if !pe.downloadOk then (.erroredF, db, [.download])
  else
    match indexFile pe.indexEnv db src fi pe.computedHash with
    | (ok, db', tr) => (if ok then .indexedF else .erroredF, db', .download :: tr)

/-- `if max_files: files = files[:max_files]` — Python truthiness: both
`None` and `0` leave the list untruncated. -/
def truncateFiles (maxFiles : Option Nat) (files : List FileInfo) : List FileInfo :=
  match maxFiles with
  | none => files
  | some m => if m = 0 then files else files.take m

/-- Environment of one `sync` run: what `fetch_files` does (raises or
returns a list) and the per-file external outcomes. -/
structure SyncEnv where
  fetchResult : Except String (List FileInfo)
  perFile : FileInfo → PerFileEnv

/-- The counts dictionary returned by `BaseSyncEngine.sync`. -/
structure Outcome where
  indexed : Nat
  skipped : Nat
  errors : Nat
  total : Nat
  deriving DecidableEq

/-- The counting loop of `BaseSyncEngine.sync`. -/
def syncLoop (env : FileInfo → PerFileEnv) (src : String) :
    List FileInfo → Db → Nat → Nat → Nat → (Nat × Nat × Nat) × Db
  | [], db, ic, sc, ec => ((ic, sc, ec), db)
  | fi :: rest, db, ic, sc, ec =>
    match processFile (env fi) src db fi with
    | (.indexedF, db', _) => syncLoop env src rest db' (ic + 1) sc ec
    | (.skippedF, db', _) => syncLoop env src rest db' ic (sc + 1) ec
    | (.erroredF, db', _) => syncLoop env src rest db' ic sc (ec + 1)

/-- `BaseSyncEngine.sync` (lines 66-148): set state `syncing`, fetch, truncate,
loop, set state `idle` and return the counts; if `fetch_files` raises, set
state `error` with the message and re-raise (the `Except.error` result). -/
def sync (env : SyncEnv) (src : String) (maxFiles : Option Nat) (db : Db) :
    Except String Outcome × Db :=
  let db1 := db.updateSyncState src "syncing" none
  match env.fetchResult with
  | .error e => (.error e, db1.updateSyncState src "error" (some e))
  | .ok files0 =>
    let files := truncateFiles maxFiles files0
    match syncLoop env.perFile src files db1 0 0 0 with
    | ((ic, sc, ec), db2) =>
      (.ok ⟨ic, sc, ec, files.length⟩, db2.updateSyncState src "idle" none)

/-! ## SyncManager (`sync_manager.py`) -/

/-- The engines dictionary of `SyncManager.__init__`, in insertion order. -/
def engineNames : List String := ["Finder", "Google Drive", "OneDrive"]

/-- The adaptive batch size of `SyncManager.sync_all` (lines 69-76), applied
to `len(self.db.get_files_by_source(source_name))`. -/
def adaptiveMaxFiles (alreadyIndexed : Nat) : Nat :=
  if alreadyIndexed < 100 then 500
  else if alreadyIndexed < 500 then 200
  else 50

/-- Per-source environment for `sync_all`: the result of the engine's
`is_authenticated()` and the environment of its `sync` run. -/
structure SourceEnv where
  authenticated : Bool
  syncEnv : SyncEnv

/-- One entry of the results dictionary of `sync_all`: either the counts
dictionary or an `{'error': ...}` entry. -/
inductive SourceResult where
  | ok (o : Outcome)
  | err (msg : String)
  deriving DecidableEq

/-- The loop body of `SyncManager.sync_all` for one source: skip disabled
sources silently (`continue`, no results entry), report unauthenticated
sources as `{'error': 'Not authenticated'}`, otherwise call the engine's
`sync` with the adaptive cap; an exception from `sync` is caught and
recorded as an error entry.  The third component records the `max_files`
argument passed to `sync`, if it was called. -/
def syncAllStep (se : SourceEnv) (db : Db) (src : String) :
    Option (String × SourceResult) × Db × Option Nat :=
  if !db.sourceEnabled src then (none, db, none)
  else if !se.authenticated then (some (src, .err "Not authenticated"), db, none)
  else
    let maxF := adaptiveMaxFiles (db.getFilesBySource src).length
    match sync se.syncEnv src (some maxF) db with
    | (.ok o, db') => (some (src, .ok o), db', some maxF)
    | (.error m, db') => (some (src, .err m), db', some maxF)

/-- `SyncManager.sync_all`: fold the per-source step over the engines. -/
def syncAll (envs : String → SourceEnv) (db : Db) :
    List (String × SourceResult) × Db :=
  engineNames.foldl
    (fun acc src =>
      match syncAllStep (envs src) acc.2 src with
      | (entry, db', _) => (acc.1 ++ entry.toList, db'))
    ([], db)

/-! ## SyncCoordinator (`sync_coordinator.py`)

The class holds one `threading.Lock` per source plus a history list; the
`locked` field below is the set of sources whose lock is currently held.
Wall-clock bookkeeping (`started`/`ended`/`duration`) is not modelled; the
history keeps `(source, success)`. -/

structure Coordinator where
  locked : List String
  history : List (String × Bool)
  deriving DecidableEq

/-- `SyncCoordinator.start_sync`: `self.locks[source].acquire(blocking=False)`
— returns `False` and changes nothing while the source's lock is held. -/
def Coordinator.startSync (c : Coordinator) (src : String) : Bool × Coordinator :=
  if src ∈ c.locked then (false, c)
  else (true, { c with locked := src :: c.locked })

/-- `SyncCoordinator.end_sync`: record the outcome in the bounded history
(last 100 entries) and release the lock; a no-op if the lock is free. -/
def Coordinator.endSync (c : Coordinator) (src : String) (success : Bool) :
    Coordinator :=
  if src ∈ c.locked then
    let h := c.history ++ [(src, success)]
    { locked := c.locked.erase src,
      history := if 100 < h.length then h.drop (h.length - 100) else h }
  else c

/-- The mutable state reachable from a `SyncManager` plus a
`SyncCoordinator` instance, for stating what `sync_source` touches. -/
structure MState where
  db : Db
  coord : Coordinator
  deriving DecidableEq

/-- `SyncManager.sync_source` (lines 93-107): raise `ValueError` for an
unknown source, otherwise call `engine.sync(...)` directly with no
`max_files` argument.  The body contains no reference to any
`SyncCoordinator`; the coordinator component is passed through untouched —
exactly as in the source, where no `SyncCoordinator` is ever constructed
or consulted. -/
def syncSource (env : SyncEnv) (st : MState) (src : String) :
    Except String (Except String Outcome) × MState :=
  if src ∈ engineNames then
    match sync env src none st.db with
    | (r, db') => (.ok r, { st with db := db' })
  else (.error ("Unknown source: " ++ src), st)

/-- `source_name.lower().replace(' ', '_')` from `disconnect_source`
(char-wise: ASCII lowercase, then spaces to underscores). -/
def serviceName (src : String) : String :=
  String.mk (src.data.map (fun c => if c.toLower = ' ' then '_' else c.toLower))

/-- `SyncManager.disconnect_source` (lines 185-205): a no-op for `'Finder'`;
otherwise delete the OAuth token row, run
`UPDATE files SET is_deleted = 1 WHERE source = ?`, and
`DELETE FROM sync_state WHERE source = ?`. -/
def disconnectSource (db : Db) (src : String) : Db :=
  if src = "Finder" then db
  else
    let db1 := db.deleteOauthToken (serviceName src)
    let db2 := { db1 with
      files := db1.files.map
        (fun (r : FileRow) =>
          if r.source == src then { r with isDeleted := true } else r) }
    { db2 with syncStates := db2.syncStates.filter (fun st => st.source ≠ src) }

/-! ## Google Drive page fetching (`gdrive_sync.py`, `fetch_files`)

The pagination loop fetches one page per iteration of the outer `while`;
a failed page fetch is retried with `time.sleep(2 ** retries)` after
incrementing `retries` (so the delays are 2, 4, 8 seconds), the page token
is advanced only on success (the *same* page is retried), `retries` is
reset to 0 after each successful page, and once `retries` reaches
`max_retries = 3` the exception propagates to the outer handler, which
returns `[]`.

The environment is the provider's page sequence: for each page, the number
of leading transient failures before it succeeds, and its items. -/

def maxRetries : Nat := 3

/-- Seconds slept while a page fails `f` times before succeeding:
`2^1 + 2^2 + ... + 2^f`. -/
def pageSleep (f : Nat) : Nat := ((List.range f).map (fun i => 2 ^ (i + 1))).sum

/-- The pagination loop: accumulate items page by page; a page that fails
more than `maxRetries` times raises after sleeping `2 + 4 + 8` seconds.
The second component is the total seconds slept. -/
def fetchPages : List (Nat × List String) → Except String (List String) × Nat
  | [] => (.ok [], 0)
  | (f, items) :: rest =>
    if f ≤ maxRetries then
      match fetchPages rest with
      | (.ok l, s) => (.ok (items ++ l), pageSleep f + s)
      | (.error e, s) => (.error e, pageSleep f + s)
    else (.error "page fetch failed", pageSleep maxRetries)

/-- `GoogleDriveSyncEngine.fetch_files`: the outer `try` turns a raised
exhaustion into `return []`. -/
def gdriveFetchFiles (pages : List (Nat × List String)) : List String × Nat :=
  match fetchPages pages with
  | (.ok l, s) => (l, s)
  | (.error _, s) => ([], s)

/-! ## OneDrive page fetching (`onedrive_sync.py`, `fetch_files`)

The OneDrive listing nests two loops: an outer
`while next_link and page_count < 100` over pages, and an inner
`while retries <= max_retries` retry loop over attempts at the current
page.  On a 200 response the items are appended, `next_link` advances,
`page_count` increments and the inner loop `break`s; on a non-200 response
with budget left, `retries += 1; time.sleep(2 ** retries); continue`; once
the budget is exhausted the three failure kinds behave differently:
- non-200 status: `break` — which exits only the *inner* loop, leaving
  `next_link` and `page_count` unchanged, so the outer loop re-enters with
  `retries = 0`;
- `requests.exceptions.Timeout`: `return files` (the items collected so
  far);
- any other exception: `raise`, caught by the outer handler which returns
  `[]`.
The 401 re-authentication path is not modelled (it does not retire retry
budget and is irrelevant to the claims here). -/

/-- One attempt's outcome for a OneDrive page request: a 200 with items
and the optional `@odata.nextLink`, a non-200 status, a timeout, or some
other exception. -/
inductive ODResponse where
  | ok (items : List String) (next : Option Nat)
  | httpError
  | timeout
  | exc
  deriving DecidableEq

/-- How one round of the inner retry loop over a single page ends. -/
inductive RoundResult where
  | success (items : List String) (next : Option Nat)
  | giveUpPage
  | timeoutBail
  | raised
  deriving DecidableEq

/-- The inner retry loop for the current page: `attempt` is the current
value of `retries` (the attempt index within this round), the second
argument the remaining retry budget `max_retries - retries`.  A failure
with budget left sleeps `2 ^ (retries + 1)` seconds and retries; the first
component accumulates the seconds slept. -/
def odRound (resp : Nat → ODResponse) : Nat → Nat → Nat × RoundResult
  | attempt, 0 =>
    match resp attempt with
    | .ok items next => (0, .success items next)
    | .httpError => (0, .giveUpPage)
    | .timeout => (0, .timeoutBail)
    | .exc => (0, .raised)
  | attempt, left + 1 =>
    match resp attempt with
    | .ok items next => (0, .success items next)
    | .httpError =>
      match odRound resp (attempt + 1) left with
      | (s, r) => (2 ^ (attempt + 1) + s, r)
    | .timeout =>
      match odRound resp (attempt + 1) left with
      | (s, r) => (2 ^ (attempt + 1) + s, r)
    | .exc =>
      match odRound resp (attempt + 1) left with
      | (s, r) => (2 ^ (attempt + 1) + s, r)

/-- The mutable state of the outer pagination loop: the files collected so
far, `next_link` (page tokens as numbers), `page_count`, and the total
seconds slept. -/
structure ODState where
  files : List String
  nextLink : Option Nat
  pageCount : Nat
  sleepTotal : Nat
  deriving DecidableEq

/-- The possible ends of `OneDriveSyncEngine.fetch_files`: the loop exits
normally (`next_link` empty or 100 pages) and returns the files; a timeout
exhaustion returns the files collected so far; an exception reaches the
outer handler, which returns `[]`; or the supplied fuel ran out with the
loop still active (the code has no such bound — `running` marks
non-termination within the fuel). -/
inductive ODFetchResult where
  | finished (files : List String)
  | timedOut (files : List String)
  | aborted
  | running (st : ODState)
  deriving DecidableEq

/-- The outer pagination loop, fuelled by the number of outer iterations.
The environment gives, per page token and per attempt within a round, the
response.  Note the `giveUpPage` case: exactly as in the source, it leaves
`nextLink` and `pageCount` unchanged and re-enters with a fresh retry
budget. -/
def odFetchLoop (resp : Nat → Nat → ODResponse) : Nat → ODState → ODFetchResult
  | 0, st => .running st
  | fuel + 1, st =>
    match st.nextLink with
    | none => .finished st.files
    | some t =>
      if st.pageCount < 100 then
        match odRound (resp t) 0 maxRetries with
        | (s, .success items next) =>
          odFetchLoop resp fuel
            ⟨st.files ++ items, next, st.pageCount + 1, st.sleepTotal + s⟩
        | (s, .giveUpPage) =>
          odFetchLoop resp fuel ⟨st.files, some t, st.pageCount, st.sleepTotal + s⟩
        | (_, .timeoutBail) => .timedOut st.files
        | (_, .raised) => .aborted
      else .finished st.files

/-- An environment in which every request for every page fails with a
non-200 status (e.g. a persistent HTTP 500). -/
def badResp : Nat → Nat → ODResponse := fun _ _ => .httpError

/-! ## Finder folder scanning (`finder_sync.py`, `fetch_files`)

The scanner walks each watched folder, globbing `*{ext}` for every
supported extension, computes `compute_file_hash` (SHA-256 of the file's
bytes, `models.py` lines 350-356) for each match, skips files whose
`stat`/hash raises, and finally sorts by `last_modified` descending.  The
SHA-256 digest itself is external (`hashlib`); it enters as the function
parameter `sha`. -/

/-- `get_supported_extensions` (`semantic/file_processor.py`). -/
def supportedExtensions : List String :=
  [".pdf",
   ".png", ".jpg", ".jpeg", ".gif", ".webp",
   ".docx", ".doc",
   ".pptx", ".ppt",
   ".xlsx", ".xls", ".csv",
   ".txt", ".md", ".rtf"]

/-- Whether a filename matches the glob `*{ext}`. -/
def strEndsWith (s pat : String) : Bool := pat.data.isSuffixOf s.data

/-- A file on disk as the scanner sees it: name, full path, content bytes,
modification time, and whether `stat`/read succeeds. -/
structure RawFile where
  name : String
  path : String
  content : List Nat
  mtime : Int
  readable : Bool

/-- The descriptor appended for one scanned file (lines 71-81): the hash is
computed from the file's bytes during enumeration. -/
def mkFinderDesc (sha : List Nat → String) (f : RawFile) : FileInfo :=
  ⟨f.name, f.path, some (sha f.content), f.mtime⟩

/-- The inner loops for one folder: for each supported extension, every
readable file matching `*{ext}`. -/
def scanFolder (sha : List Nat → String) (folder : List RawFile) : List FileInfo :=
  supportedExtensions.foldl
    (fun acc ext =>
      acc ++ ((folder.filter (fun f => strEndsWith f.name ext && f.readable)).map
        (mkFinderDesc sha)))
    []

/-- "`a` was modified no earlier than `b`" — the descending-recency order
used by `files.sort(key=..., reverse=True)`. -/
def recencyGE (a b : FileInfo) : Prop := b.lastModified ≤ a.lastModified

instance : DecidableRel recencyGE := fun a b =>
  inferInstanceAs (Decidable (b.lastModified ≤ a.lastModified))

instance : IsTotal FileInfo recencyGE :=
  ⟨fun a b => le_total b.lastModified a.lastModified⟩

instance : IsTrans FileInfo recencyGE :=
  ⟨fun _ _ _ hab hbc => le_trans hbc hab⟩

/-- `FinderSyncEngine.fetch_files`: scan every watched folder, then sort by
modification time, newest first (a stable sort, like Python's). -/
def finderFetchFiles (sha : List Nat → String) (folders : List (List RawFile)) :
    List FileInfo :=
  List.insertionSort recencyGE
    (folders.foldl (fun acc folder => acc ++ scanFolder sha folder) [])

/-! ## Concrete fixtures

Small concrete databases, files and environments used to evaluate the
model on the spec's scenarios. -/

/-- A per-file environment in which download, embedding and upsert all
succeed. -/
def allOkPerFile : PerFileEnv := ⟨false, true, ⟨true, true, true⟩, "chash"⟩

def invoiceFile1 : FileInfo := ⟨"invoice_q1.pdf", "/docs/invoice_q1.pdf", some "h1", 10⟩

def invoiceFile2 : FileInfo := ⟨"invoice_q2.pdf", "/docs/invoice_q2.pdf", some "h2", 20⟩

/-- The spec's end-to-end local scenario: two invoices, everything works. -/
def invoiceEnv : SyncEnv := ⟨.ok [invoiceFile1, invoiceFile2], fun _ => allOkPerFile⟩

/-- A per-file environment whose embedding call fails persistently. -/
def embedFailPerFile : PerFileEnv := ⟨false, true, ⟨true, false, true⟩, "hr"⟩

def reportFile : FileInfo := ⟨"report.pdf", "/docs/report.pdf", some "hr", 0⟩

def embedFailEnv : SyncEnv := ⟨.ok [reportFile], fun _ => embedFailPerFile⟩

/-- An environment whose `fetch_files` raises. -/
def failEnv : SyncEnv := ⟨.error "boom", fun _ => allOkPerFile⟩

/-- A manager state in which another sync of `'Finder'` currently holds the
coordinator lock. -/
def lockedState : MState := ⟨emptyDb, ⟨["Finder"], []⟩⟩

def oldRow : FileRow := ⟨"notes.txt", "/docs/notes.txt", "Finder", "oldhash", false⟩

/-- A ledger holding an active record for `notes.txt` under its old hash. -/
def modDb : Db := ⟨[oldRow], [], []⟩

/-- The same file, modified on disk: same name, new hash. -/
def newNotes : FileInfo := ⟨"notes.txt", "/docs/notes.txt", some "newhash", 5⟩

def delRow : FileRow := ⟨"contract.pdf", "/gd/contract.pdf", "Google Drive", "gdrive_c1", true⟩

/-- A ledger as left by `disconnect_source`: the row is soft-deleted but
still owns its unique hash. -/
def delDb : Db := ⟨[delRow], [], []⟩

def cloudFile : FileInfo := ⟨"contract.pdf", "c1", some "gdrive_c1", 7⟩

def cloudEnv : SyncEnv := ⟨.ok [cloudFile], fun _ => allOkPerFile⟩

/-- A ledger with one connected cloud source: a file row, a sync-state row
and an OAuth token. -/
def connDb : Db :=
  ⟨[⟨"a.pdf", "gd1", "Google Drive", "gdrive_a", false⟩],
    [⟨"Google Drive", "idle", none, true⟩],
    [("google_drive", "tok")]⟩

/-- Two provider pages: the first fails twice before succeeding. -/
def wPages : List (Nat × List String) := [(2, ["a", "b"]), (0, ["c"])]

/-- A page failing four times: the retry budget is exhausted. -/
def wBadPages : List (Nat × List String) := [(4, ["x"])]

def rawA : RawFile := ⟨"a.pdf", "/w/a.pdf", [1, 2], 5, true⟩

def rawB : RawFile := ⟨"b.txt", "/w/b.txt", [3], 9, true⟩

def rawC : RawFile := ⟨"c.exe", "/w/c.exe", [4], 99, true⟩

/-- A stand-in digest for the witness runs (injective enough on the
fixtures). -/
def lenSha (l : List Nat) : String := toString l.length

/-! ## Basic lemmas about the ledger operations -/

theorem updateSyncState_files (db : Db) (s status : String) (err : Option String) :
    (db.updateSyncState s status err).files = db.files := rfl

theorem addFile_syncStates (db : Db) (fn fp s h : String) :
    (db.addFile fn fp s h).syncStates = db.syncStates := by
  unfold Db.addFile; split <;> rfl

theorem addFile_files_extend (db : Db) (fn fp s h : String) :
    ∃ l, (db.addFile fn fp s h).files = db.files ++ l ∧
      ∀ r ∈ l, r.isDeleted = false := by
  unfold Db.addFile
  split
  · exact ⟨[], by simp⟩
  · exact ⟨[⟨fn, fp, s, h, false⟩], rfl, by simp⟩

theorem addFile_ignored (db : Db) (fn fp s h : String)
    (hex : ∃ r ∈ db.files, r.fileHash = h) :
    db.addFile fn fp s h = db := by
  unfold Db.addFile
  rw [if_pos]
  obtain ⟨r, hr, hh⟩ := hex
  exact List.any_eq_true.2 ⟨r, hr, by simp [hh]⟩

theorem getSyncState_files_only (db db' : Db)
    (h : db.syncStates = db'.syncStates) (s : String) :
    db.getSyncState s = db'.getSyncState s := by
  unfold Db.getSyncState; rw [h]

theorem sourceEnabled_syncStates_only (db db' : Db)
    (h : db.syncStates = db'.syncStates) (s : String) :
    db.sourceEnabled s = db'.sourceEnabled s := by
  unfold Db.sourceEnabled
  rw [getSyncState_files_only db db' h]

theorem upsertState_getSyncState_self (l : List SyncStateRow) (s status : String)
    (err : Option String) :
    ∃ en, (upsertState l s status err).find? (fun st => st.source == s) =
      some ⟨s, status, err, en⟩ := by
  induction l with
  | nil => exact ⟨true, by simp [upsertState, List.find?]⟩
  | cons st rest ih =>
    by_cases h : st.source = s
    · refine ⟨st.enabled, ?_⟩
      have hb : (st.source == s) = true := beq_iff_eq.mpr h
      simp [upsertState, List.find?, hb, h]
    · obtain ⟨en, hen⟩ := ih
      refine ⟨en, ?_⟩
      have hb : (st.source == s) = false := beq_eq_false_iff_ne.mpr h
      simp [upsertState, List.find?, hb, hen]

theorem getSyncState_update_self (db : Db) (s status : String) (err : Option String) :
    ∃ en, (db.updateSyncState s status err).getSyncState s =
      some ⟨s, status, err, en⟩ :=
  upsertState_getSyncState_self db.syncStates s status err

theorem sourceEnabled_update (db : Db) (s status : String) (err : Option String)
    (src : String) :
    (db.updateSyncState s status err).sourceEnabled src = db.sourceEnabled src := by
  unfold Db.sourceEnabled Db.getSyncState Db.updateSyncState
  simp only
  induction db.syncStates with
  | nil =>
    by_cases h : s = src
    · have hb : (s == src) = true := beq_iff_eq.mpr h
      simp [upsertState, List.find?, hb]
    · have hb : (s == src) = false := beq_eq_false_iff_ne.mpr h
      simp [upsertState, List.find?, hb]
  | cons st rest ih =>
    by_cases h : st.source = s
    · by_cases h2 : st.source = src
      · have hb : (st.source == src) = true := beq_iff_eq.mpr h2
        simp [upsertState, List.find?, beq_iff_eq.mpr h, hb]
      · have hb : (st.source == src) = false := beq_eq_false_iff_ne.mpr h2
        simp [upsertState, List.find?, beq_iff_eq.mpr h, hb]
    · by_cases h2 : st.source = src
      · have hb : (st.source == src) = true := beq_iff_eq.mpr h2
        simp [upsertState, List.find?, beq_eq_false_iff_ne.mpr h, hb]
      · have hb : (st.source == src) = false := beq_eq_false_iff_ne.mpr h2
        simpa [upsertState, List.find?, beq_eq_false_iff_ne.mpr h, hb] using ih

/-! ## Lemmas about one loop iteration -/

theorem processFile_raises (pe : PerFileEnv) (src : String) (db : Db) (fi : FileInfo)
    (h : pe.raises = true) :
    processFile pe src db fi = (.erroredF, db, []) := by
  simp [processFile, h]

theorem processFile_hashHit (pe : PerFileEnv) (src : String) (db : Db) (fi : FileInfo)
    (h : pe.raises = false) (hh : hashHit db fi = true) :
    processFile pe src db fi = (.skippedF, db, []) := by
  simp [processFile, h, hh]

theorem processFile_nameHit (pe : PerFileEnv) (src : String) (db : Db) (fi : FileInfo)
    (h : pe.raises = false) (hh : hashHit db fi = false)
    (hn : filenameHit db src fi = true) :
    processFile pe src db fi = (.skippedF, db, []) := by
  simp [processFile, h, hh, hn]

theorem processFile_skip_iff (pe : PerFileEnv) (src : String) (db : Db) (fi : FileInfo) :
    (processFile pe src db fi).1 = .skippedF ↔
      pe.raises = false ∧ skipEligible db src fi = true := by
  constructor
  · intro h
    by_cases hr : pe.raises
    · simp [processFile_raises pe src db fi hr] at h
    · refine ⟨by simp [hr], ?_⟩
      by_cases hh : hashHit db fi
      · simp [skipEligible, hh]
      · by_cases hn : filenameHit db src fi
        · simp [skipEligible, hn]
        · simp only [processFile, if_neg hr, Bool.not_eq_true] at h
          simp only [hh, if_false, hn] at h
          by_cases hd : pe.downloadOk
          · simp only [hd, Bool.not_true, if_false] at h
            rcases hif : indexFile pe.indexEnv db src fi pe.computedHash with ⟨ok, db', tr⟩
            rw [hif] at h
            simp only at h
            cases ok <;> simp_all
          · simp [hd] at h
  · rintro ⟨hr, he⟩
    rcases Bool.or_eq_true_iff.mp (by simpa [skipEligible] using he) with hh | hn
    · simp [processFile_hashHit pe src db fi hr hh]
    · by_cases hh : hashHit db fi
      · simp [processFile_hashHit pe src db fi hr hh]
      · simp [processFile_nameHit pe src db fi hr (by simpa using hh) hn]

theorem processFile_skip_db (pe : PerFileEnv) (src : String) (db : Db) (fi : FileInfo)
    (h : (processFile pe src db fi).1 = .skippedF) :
    (processFile pe src db fi).2.1 = db := by
  obtain ⟨hr, he⟩ := (processFile_skip_iff pe src db fi).1 h
  rcases Bool.or_eq_true_iff.mp (by simpa [skipEligible] using he) with hh | hn
  · simp [processFile_hashHit pe src db fi hr hh]
  · by_cases hh : hashHit db fi
    · simp [processFile_hashHit pe src db fi hr hh]
    · simp [processFile_nameHit pe src db fi hr (by simpa using hh) hn]

theorem processFile_indexed (pe : PerFileEnv) (src : String) (db : Db) (fi : FileInfo)
    (h : (processFile pe src db fi).1 = .indexedF) :
    pe.raises = false ∧ hashHit db fi = false ∧ filenameHit db src fi = false ∧
      pe.downloadOk = true ∧ pe.indexEnv.supported = true ∧
      pe.indexEnv.embedOk = true ∧ pe.indexEnv.upsertOk = true ∧
      (processFile pe src db fi).2.1 =
        db.addFile fi.filename fi.filePath src (fi.fileHash.getD pe.computedHash) := by
  by_cases hr : pe.raises
  · simp [processFile_raises pe src db fi hr] at h
  by_cases hh : hashHit db fi
  · simp [processFile_hashHit pe src db fi (by simpa using hr) hh] at h
  by_cases hn : filenameHit db src fi
  · simp [processFile_nameHit pe src db fi (by simpa using hr) (by simpa using hh) hn] at h
  by_cases hd : pe.downloadOk
  · by_cases hsup : pe.indexEnv.supported
    · by_cases hemb : pe.indexEnv.embedOk
      · by_cases hup : pe.indexEnv.upsertOk
        · refine ⟨by simpa using hr, by simpa using hh, by simpa using hn, hd,
            hsup, hemb, hup, ?_⟩
          simp [processFile, hr, hh, hn, hd, indexFile, hsup, hemb, hup]
        · simp [processFile, hr, hh, hn, hd, indexFile, hsup, hemb, hup] at h
      · simp [processFile, hr, hh, hn, hd, indexFile, hsup, hemb] at h
    · simp [processFile, hr, hh, hn, hd, indexFile, hsup] at h
  · simp [processFile, hr, hh, hn, hd] at h

theorem processFile_files_extend (pe : PerFileEnv) (src : String) (db : Db)
    (fi : FileInfo) :
    ∃ l, (processFile pe src db fi).2.1.files = db.files ++ l ∧
      ∀ r ∈ l, r.isDeleted = false := by
  by_cases hr : pe.raises
  · exact ⟨[], by simp [processFile_raises pe src db fi hr]⟩
  by_cases hh : hashHit db fi
  · exact ⟨[], by simp [processFile_hashHit pe src db fi (by simpa using hr) hh]⟩
  by_cases hn : filenameHit db src fi
  · exact ⟨[], by
      simp [processFile_nameHit pe src db fi (by simpa using hr) (by simpa using hh) hn]⟩
  by_cases hd : pe.downloadOk
  · by_cases hsup : pe.indexEnv.supported
    · by_cases hemb : pe.indexEnv.embedOk
      · by_cases hup : pe.indexEnv.upsertOk
        · obtain ⟨l, hl, hact⟩ := addFile_files_extend db fi.filename fi.filePath src
            (fi.fileHash.getD pe.computedHash)
          exact ⟨l, by
            simpa [processFile, hr, hh, hn, hd, indexFile, hsup, hemb, hup] using hl, hact⟩
        · exact ⟨[], by simp [processFile, hr, hh, hn, hd, indexFile, hsup, hemb, hup]⟩
      · exact ⟨[], by simp [processFile, hr, hh, hn, hd, indexFile, hsup, hemb]⟩
    · exact ⟨[], by simp [processFile, hr, hh, hn, hd, indexFile, hsup]⟩
  · exact ⟨[], by simp [processFile, hr, hh, hn, hd]⟩

theorem processFile_syncStates (pe : PerFileEnv) (src : String) (db : Db)
    (fi : FileInfo) :
    (processFile pe src db fi).2.1.syncStates = db.syncStates := by
  by_cases hr : pe.raises
  · simp [processFile_raises pe src db fi hr]
  by_cases hh : hashHit db fi
  · simp [processFile_hashHit pe src db fi (by simpa using hr) hh]
  by_cases hn : filenameHit db src fi
  · simp [processFile_nameHit pe src db fi (by simpa using hr) (by simpa using hh) hn]
  by_cases hd : pe.downloadOk
  · by_cases hsup : pe.indexEnv.supported
    · by_cases hemb : pe.indexEnv.embedOk
      · by_cases hup : pe.indexEnv.upsertOk
        · simp [processFile, hr, hh, hn, hd, indexFile, hsup, hemb, hup,
            addFile_syncStates]
        · simp [processFile, hr, hh, hn, hd, indexFile, hsup, hemb, hup]
      · simp [processFile, hr, hh, hn, hd, indexFile, hsup, hemb]
    · simp [processFile, hr, hh, hn, hd, indexFile, hsup]
  · simp [processFile, hr, hh, hn, hd]

/-! ## Skip eligibility only reads the `files` table, and is monotone under
appending active rows -/

theorem hashHit_congr (db db' : Db) (h : db.files = db'.files) (fi : FileInfo) :
    hashHit db fi = hashHit db' fi := by
  unfold hashHit Db.getFileByHash
  rw [h]

theorem filenameHit_congr (db db' : Db) (h : db.files = db'.files)
    (src : String) (fi : FileInfo) :
    filenameHit db src fi = filenameHit db' src fi := by
  unfold filenameHit Db.getFilesBySource
  rw [h]

theorem skipEligible_congr (db db' : Db) (h : db.files = db'.files)
    (src : String) (fi : FileInfo) :
    skipEligible db src fi = skipEligible db' src fi := by
  unfold skipEligible
  rw [hashHit_congr db db' h, filenameHit_congr db db' h]

theorem hashHit_mono (db db' : Db) (l : List FileRow)
    (h : db'.files = db.files ++ l) (fi : FileInfo)
    (hh : hashHit db fi = true) : hashHit db' fi = true := by
  unfold hashHit Db.getFileByHash at hh ⊢
  cases hfi : fi.fileHash with
  | none => rw [hfi] at hh; exact absurd hh (by simp)
  | some v =>
    rw [hfi] at hh
    obtain ⟨r, hr, hp⟩ := List.find?_isSome.mp hh
    exact List.find?_isSome.mpr ⟨r, by rw [h]; exact List.mem_append_left _ hr, hp⟩

theorem filenameHit_mono (db db' : Db) (l : List FileRow)
    (h : db'.files = db.files ++ l) (src : String) (fi : FileInfo)
    (hh : filenameHit db src fi = true) : filenameHit db' src fi = true := by
  unfold filenameHit Db.getFilesBySource at hh ⊢
  obtain ⟨r, hr, hp⟩ := List.any_eq_true.mp hh
  obtain ⟨hmem, hflt⟩ := List.mem_filter.mp hr
  refine List.any_eq_true.mpr ⟨r, List.mem_filter.mpr ⟨?_, hflt⟩, hp⟩
  rw [h]; exact List.mem_append_left _ hmem

theorem skipEligible_mono (db db' : Db) (l : List FileRow)
    (h : db'.files = db.files ++ l) (src : String) (fi : FileInfo)
    (hh : skipEligible db src fi = true) : skipEligible db' src fi = true := by
  rcases Bool.or_eq_true_iff.mp (by simpa [skipEligible] using hh) with h1 | h1
  · simp [skipEligible, hashHit_mono db db' l h fi h1]
  · simp [skipEligible, filenameHit_mono db db' l h src fi h1]

/-! ## Lemmas about the counting loop -/

theorem syncLoop_counts (env : FileInfo → PerFileEnv) (src : String) :
    ∀ (files : List FileInfo) (db : Db) (ic sc ec : Nat),
      (syncLoop env src files db ic sc ec).1.1 +
        (syncLoop env src files db ic sc ec).1.2.1 +
        (syncLoop env src files db ic sc ec).1.2.2 =
        ic + sc + ec + files.length := by
  intro files
  induction files with
  | nil => intro db ic sc ec; simp [syncLoop]
  | cons fi rest ih =>
    intro db ic sc ec
    rcases hpf : processFile (env fi) src db fi with ⟨out, db', tr⟩
    cases out <;> simp only [syncLoop, hpf] <;> rw [ih] <;> simp <;> omega

theorem syncLoop_err_mono (env : FileInfo → PerFileEnv) (src : String) :
    ∀ (files : List FileInfo) (db : Db) (ic sc ec : Nat),
      ec ≤ (syncLoop env src files db ic sc ec).1.2.2 := by
  intro files
  induction files with
  | nil => intro db ic sc ec; simp [syncLoop]
  | cons fi rest ih =>
    intro db ic sc ec
    rcases hpf : processFile (env fi) src db fi with ⟨out, db', tr⟩
    cases out <;> simp only [syncLoop, hpf]
    · exact ih db' (ic + 1) sc ec
    · exact ih db' ic (sc + 1) ec
    · exact le_trans (Nat.le_succ ec) (ih db' ic sc (ec + 1))

theorem syncLoop_files_extend (env : FileInfo → PerFileEnv) (src : String) :
    ∀ (files : List FileInfo) (db : Db) (ic sc ec : Nat),
      ∃ l, (syncLoop env src files db ic sc ec).2.files = db.files ++ l ∧
        ∀ r ∈ l, r.isDeleted = false := by
  intro files
  induction files with
  | nil => intro db ic sc ec; exact ⟨[], by simp [syncLoop]⟩
  | cons fi rest ih =>
    intro db ic sc ec
    rcases hpf : processFile (env fi) src db fi with ⟨out, db', tr⟩
    have hext : ∃ l, db'.files = db.files ++ l ∧ ∀ r ∈ l, r.isDeleted = false := by
      have := processFile_files_extend (env fi) src db fi
      rwa [hpf] at this
    obtain ⟨l1, hl1, hact1⟩ := hext
    cases out <;> simp only [syncLoop, hpf]
    · obtain ⟨l2, hl2, hact2⟩ := ih db' (ic + 1) sc ec
      exact ⟨l1 ++ l2, by rw [hl2, hl1, List.append_assoc], by
        intro r hr; rcases List.mem_append.mp hr with h | h
        · exact hact1 r h
        · exact hact2 r h⟩
    · obtain ⟨l2, hl2, hact2⟩ := ih db' ic (sc + 1) ec
      exact ⟨l1 ++ l2, by rw [hl2, hl1, List.append_assoc], by
        intro r hr; rcases List.mem_append.mp hr with h | h
        · exact hact1 r h
        · exact hact2 r h⟩
    · obtain ⟨l2, hl2, hact2⟩ := ih db' ic sc (ec + 1)
      exact ⟨l1 ++ l2, by rw [hl2, hl1, List.append_assoc], by
        intro r hr; rcases List.mem_append.mp hr with h | h
        · exact hact1 r h
        · exact hact2 r h⟩

theorem syncLoop_syncStates (env : FileInfo → PerFileEnv) (src : String) :
    ∀ (files : List FileInfo) (db : Db) (ic sc ec : Nat),
      (syncLoop env src files db ic sc ec).2.syncStates = db.syncStates := by
  intro files
  induction files with
  | nil => intro db ic sc ec; simp [syncLoop]
  | cons fi rest ih =>
    intro db ic sc ec
    rcases hpf : processFile (env fi) src db fi with ⟨out, db', tr⟩
    have hst : db'.syncStates = db.syncStates := by
      have := processFile_syncStates (env fi) src db fi
      rwa [hpf] at this
    cases out <;> simp only [syncLoop, hpf] <;> rw [← hst]
    · exact ih db' (ic + 1) sc ec
    · exact ih db' ic (sc + 1) ec
    · exact ih db' ic sc (ec + 1)

/-- When every fetched file is already skip-eligible (and no iteration
raises), the loop skips everything and leaves the database untouched. -/
theorem syncLoop_allskip (env : FileInfo → PerFileEnv) (src : String) :
    ∀ (files : List FileInfo) (db : Db) (ic sc ec : Nat),
      (∀ fi ∈ files, (env fi).raises = false ∧ skipEligible db src fi = true) →
      syncLoop env src files db ic sc ec = ((ic, sc + files.length, ec), db) := by
  intro files
  induction files with
  | nil => intro db ic sc ec _; simp [syncLoop]
  | cons fi rest ih =>
    intro db ic sc ec hall
    obtain ⟨hr, he⟩ := hall fi (by simp)
    have hpf : processFile (env fi) src db fi = (.skippedF, db, []) := by
      rcases Bool.or_eq_true_iff.mp (by simpa [skipEligible] using he) with hh | hn
      · exact processFile_hashHit (env fi) src db fi hr hh
      · by_cases hh : hashHit db fi
        · exact processFile_hashHit (env fi) src db fi hr hh
        · exact processFile_nameHit (env fi) src db fi hr (by simpa using hh) hn
    simp only [syncLoop, hpf]
    rw [ih db ic (sc + 1) ec (fun f hf => hall f (by simp [hf]))]
    simp only [List.length_cons]
    have heq : sc + 1 + rest.length = sc + (rest.length + 1) := by omega
    rw [heq]

/-- After a loop pass that produced no per-file errors, every fetched file
that carries a hash not colliding with a soft-deleted row of the starting
database is skip-eligible in the resulting database, and its iteration did
not raise: it was either skipped (already eligible) or indexed (committing
an active row with its hash). -/
theorem syncLoop_clean (env : FileInfo → PerFileEnv) (src : String) :
    ∀ (files : List FileInfo) (db : Db) (ic sc ec : Nat),
      (∀ fi ∈ files, fi.fileHash.isSome) →
      (∀ fi ∈ files, ∀ h, fi.fileHash = some h →
        ∀ r ∈ db.files, r.fileHash = h → r.isDeleted = false) →
      (syncLoop env src files db ic sc ec).1.2.2 = ec →
      ∀ fi ∈ files, (env fi).raises = false ∧
        skipEligible (syncLoop env src files db ic sc ec).2 src fi = true := by
  intro files
  induction files with
  | nil => intro db ic sc ec _ _ _ fi hfi; exact absurd hfi (by simp)
  | cons fi0 rest ih =>
    intro db ic sc ec hhash hnodel hec
    rcases hpf : processFile (env fi0) src db fi0 with ⟨out, db', tr⟩
    cases out with
    | erroredF =>
      have hstep : syncLoop env src (fi0 :: rest) db ic sc ec =
          syncLoop env src rest db' ic sc (ec + 1) := by
        simp only [syncLoop, hpf]
      rw [hstep] at hec
      have hmono := syncLoop_err_mono env src rest db' ic sc (ec + 1)
      omega
    | skippedF =>
      have hout : (processFile (env fi0) src db fi0).1 = .skippedF := by rw [hpf]
      obtain ⟨hr0, hel0⟩ := (processFile_skip_iff (env fi0) src db fi0).1 hout
      have hdb' : db' = db := by
        have h2 := processFile_skip_db (env fi0) src db fi0 hout
        rwa [hpf] at h2
      have hstep : syncLoop env src (fi0 :: rest) db ic sc ec =
          syncLoop env src rest db ic (sc + 1) ec := by
        simp only [syncLoop, hpf, hdb']
      rw [hstep] at hec ⊢
      have hrest := ih db ic (sc + 1) ec
        (fun fi hfi => hhash fi (by simp [hfi]))
        (fun fi hfi => hnodel fi (by simp [hfi])) hec
      intro fi hfi
      rcases List.mem_cons.mp hfi with h | h
      · subst h
        refine ⟨hr0, ?_⟩
        obtain ⟨l, hl, _⟩ := syncLoop_files_extend env src rest db ic (sc + 1) ec
        exact skipEligible_mono db _ l hl src fi hel0
      · exact hrest fi h
    | indexedF =>
      have hout : (processFile (env fi0) src db fi0).1 = .indexedF := by rw [hpf]
      obtain ⟨hr0, hh0, hn0, hd0, hsup0, hemb0, hup0, hdbeq⟩ :=
        processFile_indexed (env fi0) src db fi0 hout
      obtain ⟨h0, hfi0⟩ := Option.isSome_iff_exists.mp (hhash fi0 (by simp))
      have hgetD : fi0.fileHash.getD (env fi0).computedHash = h0 := by
        rw [hfi0]; rfl
      rw [hpf] at hdbeq
      simp only [hgetD] at hdbeq
      -- no row of `db` carries `h0`, so the insert is not ignored
      have hnone : db.files.any (fun r => r.fileHash == h0) = false := by
        cases hany : db.files.any (fun r => r.fileHash == h0) with
        | false => rfl
        | true =>
          exfalso
          obtain ⟨r, hr, hp⟩ := List.any_eq_true.mp hany
          have hrh : r.fileHash = h0 := by simpa using hp
          by_cases hdel : r.isDeleted
          · exact absurd (hnodel fi0 (by simp) h0 hfi0 r hr hrh) (by simp [hdel])
          · have hht : hashHit db fi0 = true := by
              unfold hashHit Db.getFileByHash
              rw [hfi0]
              exact List.find?_isSome.mpr ⟨r, hr, by simp [hrh, hdel]⟩
            rw [hht] at hh0
            exact absurd hh0 (by simp)
      have hdb' : db'.files =
          db.files ++ [⟨fi0.filename, fi0.filePath, src, h0, false⟩] := by
        rw [hdbeq]
        unfold Db.addFile
        rw [if_neg (by simp [hnone])]
      have hel0 : skipEligible db' src fi0 = true := by
        have : hashHit db' fi0 = true := by
          unfold hashHit Db.getFileByHash
          rw [hfi0]
          exact List.find?_isSome.mpr
            ⟨⟨fi0.filename, fi0.filePath, src, h0, false⟩,
              by rw [hdb']; exact List.mem_append_right _ (by simp), by simp⟩
        simp [skipEligible, this]
      have hstep : syncLoop env src (fi0 :: rest) db ic sc ec =
          syncLoop env src rest db' (ic + 1) sc ec := by
        simp only [syncLoop, hpf]
      rw [hstep] at hec ⊢
      have hnodel' : ∀ fi ∈ rest, ∀ h, fi.fileHash = some h →
          ∀ r ∈ db'.files, r.fileHash = h → r.isDeleted = false := by
        intro fi hfi h hfh r hr hrh
        rw [hdb'] at hr
        rcases List.mem_append.mp hr with hr | hr
        · exact hnodel fi (by simp [hfi]) h hfh r hr hrh
        · simp only [List.mem_singleton] at hr
          rw [hr]
      have hrest := ih db' (ic + 1) sc ec
        (fun fi hfi => hhash fi (by simp [hfi])) hnodel' hec
      intro fi hfi
      rcases List.mem_cons.mp hfi with h | h
      · subst h
        refine ⟨hr0, ?_⟩
        obtain ⟨l, hl, _⟩ := syncLoop_files_extend env src rest db' (ic + 1) sc ec
        exact skipEligible_mono db' _ l hl src fi hel0
      · exact hrest fi h

/-- When every iteration indexes its file without changing the database
(the `INSERT OR IGNORE` no-op of a stale hash collision), the loop counts
every file as indexed and returns the database unchanged. -/
theorem syncLoop_allindexed (env : FileInfo → PerFileEnv) (src : String) :
    ∀ (files : List FileInfo) (db : Db) (ic sc ec : Nat),
      (∀ fi ∈ files, processFile (env fi) src db fi = (.indexedF, db, [.download, .embed, .upsert, .addFile])) →
      syncLoop env src files db ic sc ec = ((ic + files.length, sc, ec), db) := by
  intro files
  induction files with
  | nil => intro db ic sc ec _; simp [syncLoop]
  | cons fi0 rest ih =>
    intro db ic sc ec hall
    have hpf := hall fi0 (by simp)
    simp only [syncLoop, hpf]
    rw [ih db (ic + 1) sc ec (fun f hf => hall f (by simp [hf]))]
    simp only [List.length_cons]
    have heq : ic + 1 + rest.length = ic + (rest.length + 1) := by omega
    rw [heq]

/-! ## Lemmas about a whole `sync` run and `sync_all` -/

theorem sync_error_eq (env : SyncEnv) (src : String) (maxF : Option Nat) (db : Db)
    (m : String) (hfetch : env.fetchResult = .error m) :
    sync env src maxF db =
      (.error m, (db.updateSyncState src "syncing" none).updateSyncState src
        "error" (some m)) := by
  simp [sync, hfetch]

theorem sync_ok_eq (env : SyncEnv) (src : String) (maxF : Option Nat) (db : Db)
    (files : List FileInfo) (ic sc ec : Nat) (db2 : Db)
    (hfetch : env.fetchResult = .ok files)
    (hloop : syncLoop env.perFile src (truncateFiles maxF files)
      (db.updateSyncState src "syncing" none) 0 0 0 = ((ic, sc, ec), db2)) :
    sync env src maxF db =
      (.ok ⟨ic, sc, ec, (truncateFiles maxF files).length⟩,
        db2.updateSyncState src "idle" none) := by
  simp [sync, hfetch, hloop]

theorem sync_sourceEnabled (env : SyncEnv) (src : String) (maxF : Option Nat)
    (db : Db) (s : String) :
    (sync env src maxF db).2.sourceEnabled s = db.sourceEnabled s := by
  cases hf : env.fetchResult with
  | error m =>
    rw [sync_error_eq env src maxF db m hf]
    simp only
    rw [sourceEnabled_update, sourceEnabled_update]
  | ok files =>
    rcases hsl : syncLoop env.perFile src (truncateFiles maxF files)
        (db.updateSyncState src "syncing" none) 0 0 0 with ⟨⟨ic, sc, ec⟩, db2⟩
    rw [sync_ok_eq env src maxF db files ic sc ec db2 hf hsl]
    simp only
    rw [sourceEnabled_update]
    have hst : db2.syncStates = (db.updateSyncState src "syncing" none).syncStates := by
      have h2 := syncLoop_syncStates env.perFile src (truncateFiles maxF files)
        (db.updateSyncState src "syncing" none) 0 0 0
      rw [hsl] at h2
      exact h2
    rw [sourceEnabled_syncStates_only db2 _ hst s, sourceEnabled_update]

theorem syncAllStep_sourceEnabled (se : SourceEnv) (db : Db) (src s : String) :
    (syncAllStep se db src).2.1.sourceEnabled s = db.sourceEnabled s := by
  unfold syncAllStep
  by_cases hen : db.sourceEnabled src
  · by_cases hauth : se.authenticated
    · rcases hsync : sync se.syncEnv src
          (some (adaptiveMaxFiles (db.getFilesBySource src).length)) db with ⟨r, db'⟩
      have hpres : db'.sourceEnabled s = db.sourceEnabled s := by
        have h2 := sync_sourceEnabled se.syncEnv src
          (some (adaptiveMaxFiles (db.getFilesBySource src).length)) db s
        rw [hsync] at h2
        exact h2
      cases r <;> simp [hen, hauth, hsync, hpres]
    · simp [hen, hauth]
  · simp [hen]

theorem syncAllStep_entry (se : SourceEnv) (db : Db) (src : String)
    (hen : db.sourceEnabled src = true) (hauth : se.authenticated = true) :
    ∃ res, (syncAllStep se db src).1 = some (src, res) := by
  unfold syncAllStep
  rcases hsync : sync se.syncEnv src
      (some (adaptiveMaxFiles (db.getFilesBySource src).length)) db with ⟨r, db'⟩
  cases r with
  | ok o => exact ⟨.ok o, by simp [hen, hauth, hsync]⟩
  | error m => exact ⟨.err m, by simp [hen, hauth, hsync]⟩

theorem syncAll_go_preserves (envs : String → SourceEnv) :
    ∀ (srcs : List String) (p : List (String × SourceResult) × Db)
      (x : String × SourceResult), x ∈ p.1 →
      x ∈ (srcs.foldl
        (fun acc src =>
          match syncAllStep (envs src) acc.2 src with
          | (entry, db', _) => (acc.1 ++ entry.toList, db')) p).1 := by
  intro srcs
  induction srcs with
  | nil => intro p x hx; simpa using hx
  | cons t rest ih =>
    intro p x hx
    simp only [List.foldl_cons]
    rcases hstep : syncAllStep (envs t) p.2 t with ⟨entry, db', mf⟩
    simp only [hstep]
    exact ih (p.1 ++ entry.toList, db') x (List.mem_append_left _ hx)

theorem syncAll_go_mem (envs : String → SourceEnv) :
    ∀ (srcs : List String) (p : List (String × SourceResult) × Db) (s : String),
      s ∈ srcs → p.2.sourceEnabled s = true → (envs s).authenticated = true →
      ∃ res, (s, res) ∈ (srcs.foldl
        (fun acc src =>
          match syncAllStep (envs src) acc.2 src with
          | (entry, db', _) => (acc.1 ++ entry.toList, db')) p).1 := by
  intro srcs
  induction srcs with
  | nil => intro p s hs; exact absurd hs (by simp)
  | cons t rest ih =>
    intro p s hs hen hauth
    simp only [List.foldl_cons]
    rcases hstep : syncAllStep (envs t) p.2 t with ⟨entry, db', mf⟩
    simp only [hstep]
    by_cases hst : s = t
    · subst hst
      obtain ⟨res, hres⟩ := syncAllStep_entry (envs s) p.2 s hen hauth
      rw [hstep] at hres
      simp only at hres
      subst hres
      refine ⟨res, ?_⟩
      exact syncAll_go_preserves envs rest (p.1 ++ [(s, res)], db') (s, res)
        (List.mem_append_right _ (by simp))
    · have hs' : s ∈ rest := by
        rcases List.mem_cons.mp hs with h | h
        · exact absurd h hst
        · exact h
      have hen' : db'.sourceEnabled s = true := by
        have h2 := syncAllStep_sourceEnabled (envs t) p.2 t s
        rw [hstep] at h2
        simp only at h2
        rw [h2]
        exact hen
      exact ih (p.1 ++ entry.toList, db') s hs' hen' hauth

/-! ## Claim theorems -/

/-- **C1.**  The claim says `syncSource` acquires the per-source coordinator
lock before listing files, so that of two concurrent calls for one source
exactly one executes and the other no-op skips after `tryAcquire == false`.
The code does not: `SyncManager.sync_source` calls `engine.sync` directly
and no `SyncCoordinator` is ever constructed or consulted anywhere in the
repository.  This theorem evaluates the code at the failing configuration:
while another sync of `'Finder'` holds the coordinator lock (so
`start_sync` would indeed report `false`), `sync_source` still executes the
full sync body — it lists the files and processes every one of them — and
leaves the coordinator state untouched. -/
theorem sync_source_bypasses_coordinator (env : SyncEnv) (st : MState)
    (files : List FileInfo)
    (hheld : "Finder" ∈ st.coord.locked)
    (hfetch : env.fetchResult = .ok files) :
    (st.coord.startSync "Finder").1 = false
    ∧ (syncSource env st "Finder").2.coord = st.coord
    ∧ ∃ o : Outcome, (syncSource env st "Finder").1 = .ok (.ok o)
        ∧ o.total = files.length := by
  have hmem : "Finder" ∈ engineNames := by simp [engineNames]
  refine ⟨by simp [Coordinator.startSync, hheld], ?_, ?_⟩
  · simp only [syncSource, if_pos hmem]
  · rcases hsl : syncLoop env.perFile "Finder" (truncateFiles none files)
        (st.db.updateSyncState "Finder" "syncing" none) 0 0 0 with ⟨⟨ic, sc, ec⟩, db2⟩
    refine ⟨⟨ic, sc, ec, files.length⟩, ?_, rfl⟩
    have heq := sync_ok_eq env "Finder" none st.db files ic sc ec db2 hfetch hsl
    simp only [syncSource, if_pos hmem, heq]
    rfl

/-- **C3.**  In `index_file` the ledger write `db.add_file` runs only after
the vector upsert has returned: any failure before or during the upsert
(unsupported type, embedding failure, upsert failure) makes `index_file`
return `False` with the `files` table untouched and no `add_file` call in
its trace; conversely a changed table or a traced `add_file` implies the
upsert succeeded.  Since the table is untouched, the file is still not
skip-eligible and the next sync attempt reaches the download again. -/
theorem index_file_ledger_write_after_upsert (ie : IndexEnv) (db : Db)
    (src : String) (fi : FileInfo) (ch : String) :
    (¬(ie.supported = true ∧ ie.embedOk = true ∧ ie.upsertOk = true) →
      (indexFile ie db src fi ch).1 = false
      ∧ (indexFile ie db src fi ch).2.1 = db
      ∧ Action.addFile ∉ (indexFile ie db src fi ch).2.2)
    ∧ ((indexFile ie db src fi ch).2.1 ≠ db →
        ie.supported = true ∧ ie.embedOk = true ∧ ie.upsertOk = true)
    ∧ (Action.addFile ∈ (indexFile ie db src fi ch).2.2 →
        ie.upsertOk = true
        ∧ (indexFile ie db src fi ch).2.2 = [.embed, .upsert, .addFile])
    ∧ (∀ pe : PerFileEnv, pe.raises = false → pe.downloadOk = true →
        pe.indexEnv = ie →
        hashHit db fi = false → filenameHit db src fi = false →
        ¬(ie.supported = true ∧ ie.embedOk = true ∧ ie.upsertOk = true) →
        (processFile pe src db fi).1 = .erroredF
        ∧ (processFile pe src db fi).2.1 = db
        ∧ Action.download ∈ (processFile pe src db fi).2.2) := by
  by_cases hsup : ie.supported
  · by_cases hemb : ie.embedOk
    · by_cases hup : ie.upsertOk
      · exact ⟨fun hc => absurd ⟨hsup, hemb, hup⟩ hc,
          fun _ => ⟨hsup, hemb, hup⟩,
          fun _ => ⟨hup, by simp [indexFile, hsup, hemb, hup]⟩,
          fun pe _ _ _ _ _ hc => absurd ⟨hsup, hemb, hup⟩ hc⟩
      · refine ⟨fun _ => by simp [indexFile, hsup, hemb, hup], ?_,
          by simp [indexFile, hsup, hemb, hup], ?_⟩
        · intro hne; exact absurd (by simp [indexFile, hsup, hemb, hup]) hne
        · intro pe hr hd hie hh hn _
          simp [processFile, hr, hh, hn, hd, hie, indexFile, hsup, hemb, hup]
    · refine ⟨fun _ => by simp [indexFile, hsup, hemb], ?_,
        by simp [indexFile, hsup, hemb], ?_⟩
      · intro hne; exact absurd (by simp [indexFile, hsup, hemb]) hne
      · intro pe hr hd hie hh hn _
        simp [processFile, hr, hh, hn, hd, hie, indexFile, hsup, hemb]
  · refine ⟨fun _ => by simp [indexFile, hsup], ?_,
      by simp [indexFile, hsup], ?_⟩
    · intro hne; exact absurd (by simp [indexFile, hsup]) hne
    · intro pe hr hd hie hh hn _
      simp [processFile, hr, hh, hn, hd, hie, indexFile, hsup]

/-- **C4.**  A fetched file whose `(source, filename)` matches a non-deleted
ledger row with a different content hash is neither downloaded nor
re-indexed: its iteration returns `skipped`, the database (and hence the
existing `FileRecord` and its vector id) is unchanged, and no external call
is attempted. -/
theorem modified_file_skipped_not_reindexed (pe : PerFileEnv) (src : String)
    (db : Db) (fi : FileInfo) (r : FileRow)
    (hraise : pe.raises = false)
    (hmem : r ∈ db.files) (hsrc : r.source = src) (hname : r.filename = fi.filename)
    (hact : r.isDeleted = false)
    (hdiff : ∀ h, fi.fileHash = some h → r.fileHash ≠ h) :
    processFile pe src db fi = (.skippedF, db, []) := by
  by_cases hh : hashHit db fi
  · exact processFile_hashHit pe src db fi hraise hh
  · have hn : filenameHit db src fi = true := by
      unfold filenameHit Db.getFilesBySource
      exact List.any_eq_true.mpr
        ⟨r, List.mem_filter.mpr ⟨hmem, by simp [hsrc, hact]⟩, by simp [hname, hact]⟩
    exact processFile_nameHit pe src db fi hraise (by simpa using hh) hn

/-- **C5.**  For an enabled, authenticated source, `sync_all` passes
`max_files = adaptiveMaxFiles(len(get_files_by_source(source)))` — the
count of that source's non-deleted ledger rows — to the engine's `sync`,
and the cap is 500 below 100 already-indexed files, 200 below 500, and 50
otherwise; in particular counts 50, 300 and 1000 give 500, 200 and 50. -/
theorem sync_all_adaptive_batch (se : SourceEnv) (db : Db) (src : String)
    (hen : db.sourceEnabled src = true) (hauth : se.authenticated = true) :
    (syncAllStep se db src).2.2 =
      some (adaptiveMaxFiles (db.getFilesBySource src).length)
    ∧ adaptiveMaxFiles 50 = 500 ∧ adaptiveMaxFiles 300 = 200 ∧
      adaptiveMaxFiles 1000 = 50 := by
  refine ⟨?_, by decide, by decide, by decide⟩
  unfold syncAllStep
  rcases hsync : sync se.syncEnv src
      (some (adaptiveMaxFiles (db.getFilesBySource src).length)) db with ⟨r, db'⟩
  cases r <;> simp [hen, hauth, hsync]

/-- **C6.**  For a non-local source, `disconnect_source` deletes the OAuth
token row, soft-deletes every file row of that source and deletes the
sync-state row, so `get_files_by_source` returns no active records,
`get_oauth_token` returns nothing and the status reports `never_synced`;
for `'Finder'` it changes nothing. -/
theorem disconnect_soft_deletes (db : Db) (src : String) :
    (src ≠ "Finder" →
      (disconnectSource db src).getFilesBySource src = []
      ∧ (∀ r ∈ (disconnectSource db src).files, r.source = src → r.isDeleted = true)
      ∧ (disconnectSource db src).getOauthToken (serviceName src) = none
      ∧ (disconnectSource db src).getSyncState src = none
      ∧ (disconnectSource db src).statusOf src = "never_synced")
    ∧ (src = "Finder" → disconnectSource db src = db) := by
  constructor
  · intro hne
    have hstate : (disconnectSource db src).getSyncState src = none := by
      simp only [disconnectSource, if_neg hne, Db.getSyncState]
      rw [List.find?_eq_none]
      intro st hst
      have hmem := (List.mem_filter.mp hst).2
      simp only [decide_eq_true_eq] at hmem
      simpa using hmem
    refine ⟨?_, ?_, ?_, hstate, ?_⟩
    · simp only [disconnectSource, if_neg hne, Db.getFilesBySource]
      rw [List.filter_eq_nil_iff]
      intro r' hr'
      obtain ⟨r, _, hmap⟩ := List.mem_map.mp hr'
      by_cases hs : r.source = src
      · rw [← hmap]
        simp [hs]
      · rw [← hmap]
        simp [hs]
    · intro r' hr' hsrc'
      simp only [disconnectSource, if_neg hne] at hr'
      obtain ⟨r, _, hmap⟩ := List.mem_map.mp hr'
      by_cases hs : r.source = src
      · rw [← hmap]
        simp [hs]
      · exfalso
        rw [← hmap] at hsrc'
        have hb : (r.source == src) = false := beq_eq_false_iff_ne.mpr hs
        rw [hb] at hsrc'
        simp only [Bool.false_eq_true, if_false] at hsrc'
        exact hs hsrc'
    · simp only [disconnectSource, if_neg hne, Db.getOauthToken, Db.deleteOauthToken]
      rw [List.find?_eq_none]
      intro t ht
      have hmem := (List.mem_filter.mp ht).2
      simp only [decide_eq_true_eq] at hmem
      simpa using hmem
    · simp only [Db.statusOf, hstate]
  · intro he
    simp [disconnectSource, he]

/-- **C7.**  Per-file failures never abort a sync run: for any per-file
environment (including iterations that raise) every fetched file, up to the
`max_files` truncation, is counted in exactly one of indexed, skipped or
errored, so `indexed + skipped + errored = total`; if `fetch_files` itself
raises, the run returns that error with the source's sync state set to
`error` carrying the message — and `sync_all` still visits every other
enabled, authenticated source, recording an entry for it. -/
theorem sync_counts_partition_and_source_error (env : SyncEnv) (src : String)
    (maxF : Option Nat) (db : Db) :
    (∀ files, env.fetchResult = .ok files →
      ∃ o db', sync env src maxF db = (.ok o, db')
        ∧ o.indexed + o.skipped + o.errors = o.total
        ∧ o.total = (truncateFiles maxF files).length)
    ∧ (∀ m, env.fetchResult = .error m →
        ∃ db', sync env src maxF db = (.error m, db')
          ∧ ∃ st, db'.getSyncState src = some st ∧ st.status = "error"
              ∧ st.errorMessage = some m)
    ∧ (∀ (envs : String → SourceEnv) (s : String), s ∈ engineNames →
        db.sourceEnabled s = true → (envs s).authenticated = true →
        ∃ res, (s, res) ∈ (syncAll envs db).1) := by
  refine ⟨?_, ?_, ?_⟩
  · intro files hfetch
    rcases hsl : syncLoop env.perFile src (truncateFiles maxF files)
        (db.updateSyncState src "syncing" none) 0 0 0 with ⟨⟨ic, sc, ec⟩, db2⟩
    refine ⟨⟨ic, sc, ec, (truncateFiles maxF files).length⟩,
      db2.updateSyncState src "idle" none,
      sync_ok_eq env src maxF db files ic sc ec db2 hfetch hsl, ?_, rfl⟩
    have hc := syncLoop_counts env.perFile src (truncateFiles maxF files)
      (db.updateSyncState src "syncing" none) 0 0 0
    rw [hsl] at hc
    simpa using hc
  · intro m hfetch
    refine ⟨_, sync_error_eq env src maxF db m hfetch, ?_⟩
    obtain ⟨en, hen⟩ := getSyncState_update_self
      (db.updateSyncState src "syncing" none) src "error" (some m)
    exact ⟨⟨src, "error", some m, en⟩, hen, rfl, rfl⟩
  · intro envs s hs hen hauth
    have h := syncAll_go_mem envs engineNames ([], db) s hs hen hauth
    simpa [syncAll] using h

/-- **C2 (amended).**  If a sync run over a file list in which every file
carries a hash that does not collide with a soft-deleted ledger row (so
every `add_file` of the run really commits its `FileRecord`) finishes with
zero per-file errors, then a second run over the same list — the underlying
files unchanged, hence the same environment — creates zero new
`FileRecords` and counts every file as skipped (`skipped == total`). -/
theorem sync_second_run_all_skipped (env : SyncEnv) (src : String)
    (files : List FileInfo) (db : Db) (o1 : Outcome) (db1 : Db)
    (hfetch : env.fetchResult = .ok files)
    (hhash : ∀ fi ∈ files, fi.fileHash.isSome)
    (hnodel : ∀ fi ∈ files, ∀ h, fi.fileHash = some h →
      ∀ r ∈ db.files, r.fileHash = h → r.isDeleted = false)
    (hrun1 : sync env src none db = (.ok o1, db1))
    (herr : o1.errors = 0) :
    ∃ db2, sync env src none db1 = (.ok ⟨0, files.length, 0, files.length⟩, db2)
      ∧ db2.files = db1.files := by
  have htr : truncateFiles none files = files := rfl
  rcases hsl : syncLoop env.perFile src files
      (db.updateSyncState src "syncing" none) 0 0 0 with ⟨⟨ic, sc, ec⟩, dbL⟩
  have heq := sync_ok_eq env src none db files ic sc ec dbL hfetch (by rw [htr]; exact hsl)
  have hpair := heq.symm.trans hrun1
  have hdb1 : db1 = dbL.updateSyncState src "idle" none :=
    (congrArg Prod.snd hpair).symm
  have ho1 : o1 = ⟨ic, sc, ec, (truncateFiles none files).length⟩ := by
    have hfst := congrArg Prod.fst hpair
    simp only at hfst
    exact (Except.ok.inj hfst).symm
  have hec : ec = 0 := by
    rw [ho1] at herr
    exact herr
  -- every file is skip-eligible in the post-run database
  have hclean := syncLoop_clean env.perFile src files
    (db.updateSyncState src "syncing" none) 0 0 0 hhash
    (by
      intro fi hfi h hfh r hr hrh
      rw [updateSyncState_files] at hr
      exact hnodel fi hfi h hfh r hr hrh)
    (by rw [hsl]; exact hec)
  rw [hsl] at hclean
  -- the `files` table is the same in `db1` and in the loop result
  have hfiles1 : db1.files = dbL.files := by
    rw [hdb1, updateSyncState_files]
  -- second run: everything skips
  have hall : ∀ fi ∈ files, (env.perFile fi).raises = false ∧
      skipEligible (db1.updateSyncState src "syncing" none) src fi = true := by
    intro fi hfi
    obtain ⟨hr, hel⟩ := hclean fi hfi
    refine ⟨hr, ?_⟩
    rw [← skipEligible_congr dbL (db1.updateSyncState src "syncing" none)
      (by rw [updateSyncState_files, hfiles1]) src fi]
    exact hel
  have hloop2 : syncLoop env.perFile src files
      (db1.updateSyncState src "syncing" none) 0 0 0 =
      ((0, files.length, 0), db1.updateSyncState src "syncing" none) := by
    have h2 := syncLoop_allskip env.perFile src files
      (db1.updateSyncState src "syncing" none) 0 0 0 hall
    simpa using h2
  refine ⟨(db1.updateSyncState src "syncing" none).updateSyncState src "idle" none,
    ?_, ?_⟩
  · have h3 := sync_ok_eq env src none db1 files 0 files.length 0
      (db1.updateSyncState src "syncing" none) hfetch (by rw [htr]; exact hloop2)
    rw [h3, htr]
  · rw [updateSyncState_files, updateSyncState_files, hfiles1, ← hfiles1]

/-- **C8.**  Because `file_hash` is `UNIQUE` over all rows (soft-deleted
ones included) and `add_file` uses `INSERT OR IGNORE`, inserting a hash
that any existing row carries — even a deleted one — leaves the `files`
table unchanged and raises nothing, while `index_file` still returns
`True`.  Hence after a disconnect soft-deletes a source's rows, every later
sync of that source re-downloads, re-embeds and re-upserts each such file,
counts it as indexed, and never restores an active `FileRecord`: the run
returns `indexed == total` with the `files` table unchanged, so the next
run repeats the same work. -/
theorem soft_deleted_hash_blocks_restore (env : SyncEnv) (src : String)
    (files : List FileInfo) (db : Db)
    (hfetch : env.fetchResult = .ok files)
    (hok : ∀ fi ∈ files, (env.perFile fi).raises = false ∧
      (env.perFile fi).downloadOk = true ∧
      (env.perFile fi).indexEnv = ⟨true, true, true⟩)
    (hdel : ∀ fi ∈ files, ∃ h, fi.fileHash = some h ∧
      (∃ r ∈ db.files, r.fileHash = h ∧ r.isDeleted = true) ∧
      (∀ r ∈ db.files, r.fileHash = h → r.isDeleted = true))
    (hname : ∀ fi ∈ files, ∀ r ∈ db.files, r.source = src →
      r.filename = fi.filename → r.isDeleted = true) :
    (∀ (dbx : Db) (fn fp s h : String), (∃ r ∈ dbx.files, r.fileHash = h) →
      dbx.addFile fn fp s h = dbx)
    ∧ (∀ fi ∈ files, processFile (env.perFile fi) src db fi =
        (.indexedF, db, [.download, .embed, .upsert, .addFile]))
    ∧ ∃ db', sync env src none db = (.ok ⟨files.length, 0, 0, files.length⟩, db')
        ∧ db'.files = db.files
        ∧ ∀ fi ∈ files, ∀ h, fi.fileHash = some h → db'.getFileByHash h = none := by
  have hfindnone : ∀ fi ∈ files, ∀ h, fi.fileHash = some h →
      db.files.find? (fun r => r.fileHash == h && !r.isDeleted) = none := by
    intro fi hfi h hfh
    obtain ⟨h', hfh', _, halldel⟩ := hdel fi hfi
    have hhh : h' = h := by
      rw [hfh] at hfh'
      exact (Option.some.inj hfh').symm
    subst hhh
    rw [List.find?_eq_none]
    intro r hr hp
    simp only [Bool.and_eq_true, beq_iff_eq, Bool.not_eq_true'] at hp
    have hrd := halldel r hr hp.1
    rw [hrd] at hp
    exact absurd hp.2 (by simp)
  have key : ∀ (dbx : Db), dbx.files = db.files → ∀ fi ∈ files,
      processFile (env.perFile fi) src dbx fi =
        (.indexedF, dbx, [.download, .embed, .upsert, .addFile]) := by
    intro dbx hfeq fi hfi
    obtain ⟨hr, hd, hie⟩ := hok fi hfi
    obtain ⟨h, hfh, ⟨rdel, hrdel, hrdelh, _⟩, _⟩ := hdel fi hfi
    have hh : hashHit dbx fi = false := by
      simp only [hashHit, hfh, Db.getFileByHash, hfeq, hfindnone fi hfi h hfh,
        Option.isSome_none]
    have hn : filenameHit dbx src fi = false := by
      unfold filenameHit Db.getFilesBySource
      rw [hfeq, List.any_eq_false]
      intro r hr2
      obtain ⟨hmem, hflt⟩ := List.mem_filter.mp hr2
      simp only [Bool.and_eq_true, beq_iff_eq, Bool.not_eq_true'] at hflt
      intro hp
      simp only [Bool.and_eq_true, beq_iff_eq, Bool.not_eq_true'] at hp
      have hrd := hname fi hfi r hmem hflt.1 hp.1
      rw [hrd] at hp
      exact absurd hp.2 (by simp)
    have hgetD : fi.fileHash.getD (env.perFile fi).computedHash = h := by
      rw [hfh]
      rfl
    have hignore : dbx.addFile fi.filename fi.filePath src h = dbx :=
      addFile_ignored dbx _ _ _ _ ⟨rdel, by rw [hfeq]; exact hrdel, hrdelh⟩
    simp [processFile, hr, hh, hn, hd, hie, indexFile, hgetD, hignore]
  refine ⟨fun dbx fn fp s h hex => addFile_ignored dbx fn fp s h hex,
    key db rfl, ?_⟩
  have hkey' := key (db.updateSyncState src "syncing" none)
    (updateSyncState_files db src "syncing" none)
  have hloop := syncLoop_allindexed env.perFile src files
    (db.updateSyncState src "syncing" none) 0 0 0 hkey'
  simp only [Nat.zero_add] at hloop
  refine ⟨(db.updateSyncState src "syncing" none).updateSyncState src "idle" none,
    ?_, ?_, ?_⟩
  · have h3 := sync_ok_eq env src none db files files.length 0 0
      (db.updateSyncState src "syncing" none) hfetch hloop
    rw [h3]
    rfl
  · rw [updateSyncState_files, updateSyncState_files]
  · intro fi hfi h hfh
    unfold Db.getFileByHash
    rw [updateSyncState_files, updateSyncState_files]
    exact hfindnone fi hfi h hfh

/-! ## Lemmas about the Google Drive pagination loop -/

theorem fetchPages_all_ok (pages : List (Nat × List String))
    (hall : ∀ p ∈ pages, p.1 ≤ maxRetries) :
    fetchPages pages =
      (.ok (pages.map Prod.snd).flatten,
        (pages.map (fun p => pageSleep p.1)).sum) := by
  induction pages with
  | nil => simp [fetchPages]
  | cons p rest ih =>
    rcases p with ⟨f, items⟩
    have hf : f ≤ maxRetries := hall (f, items) (by simp)
    rw [fetchPages, if_pos hf, ih (fun q hq => hall q (by simp [hq]))]
    simp

theorem fetchPages_exhausted (pages : List (Nat × List String))
    (hex : ∃ p ∈ pages, maxRetries < p.1) :
    ∃ e s, fetchPages pages = (.error e, s) := by
  induction pages with
  | nil => obtain ⟨p, hp, _⟩ := hex; exact absurd hp (by simp)
  | cons p rest ih =>
    rcases p with ⟨f, items⟩
    by_cases hf : f ≤ maxRetries
    · have hex' : ∃ q ∈ rest, maxRetries < q.1 := by
        obtain ⟨q, hq, hql⟩ := hex
        rcases List.mem_cons.mp hq with h | h
        · rw [h] at hql
          exact absurd hql (by omega)
        · exact ⟨q, h, hql⟩
      obtain ⟨e, s, hes⟩ := ih hex'
      rw [fetchPages, if_pos hf, hes]
      exact ⟨e, pageSleep f + s, rfl⟩
    · rw [fetchPages, if_neg hf]
      exact ⟨_, _, rfl⟩

/-- The Google Drive half of the retry/backoff behaviour (the OneDrive
half diverges; see the C9 theorem below).  Each Google Drive page fetch is
retried on failure with `time.sleep(2 ** retries)` after incrementing
`retries` — delays 2, 4, 8 seconds, base ~2s and doubling — for up to
`max_retries = 3` retry attempts of the *same* page (the page token
advances only on success, and the retry counter resets after each
successful page).  A listing whose pages all succeed within the retry
budget returns every page's items exactly once (so, in particular, a page
that fails twice contributes no duplicates and the run sleeps at least
`2 + 4` seconds), and a page that exhausts its retries aborts the
enumeration: the outer handler returns an empty listing for this run
only. -/
theorem gdrive_page_retry_backoff (pages : List (Nat × List String)) :
    ((∀ p ∈ pages, p.1 ≤ maxRetries) →
      gdriveFetchFiles pages =
        ((pages.map Prod.snd).flatten, (pages.map (fun p => pageSleep p.1)).sum)
      ∧ (((pages.map Prod.snd).flatten).Nodup → (gdriveFetchFiles pages).1.Nodup)
      ∧ (∀ its, (2, its) ∈ pages →
          2 + 4 ≤ (pages.map (fun p => pageSleep p.1)).sum))
    ∧ ((∃ p ∈ pages, maxRetries < p.1) → (gdriveFetchFiles pages).1 = []) := by
  constructor
  · intro hall
    have heq : gdriveFetchFiles pages =
        ((pages.map Prod.snd).flatten, (pages.map (fun p => pageSleep p.1)).sum) := by
      rw [gdriveFetchFiles, fetchPages_all_ok pages hall]
    refine ⟨heq, ?_, ?_⟩
    · intro hnd
      rw [heq]
      exact hnd
    · intro its hmem
      have h6 : pageSleep 2 ∈ pages.map (fun p => pageSleep p.1) :=
        List.mem_map.mpr ⟨(2, its), hmem, rfl⟩
      have hle : pageSleep 2 ≤ (pages.map (fun p => pageSleep p.1)).sum :=
        List.single_le_sum (fun x _ => Nat.zero_le x) _ h6
      have h2 : pageSleep 2 = 6 := by decide
      omega
  · intro hex
    obtain ⟨e, s, hes⟩ := fetchPages_exhausted pages hex
    rw [gdriveFetchFiles, hes]

/-- **C9.**  The claim — every cloud page-fetch that fails transiently is
retried with exponential backoff up to 3 attempts, and exhausting the
retries aborts enumeration for this run only — holds for the Google Drive
adapter (`gdrive_page_retry_backoff`) but is broken by the OneDrive
adapter, whose own comment at the exhaustion point reads
"`break  # Give up on this page`": that `break` exits only the inner retry
loop, leaving `next_link` and `page_count` unchanged, so the outer loop
re-enters the same page with `retries` reset to 0.  This theorem evaluates
the code at the failing input — a page whose requests persistently return
a non-200 status: each round makes 4 attempts (1 initial + 3 retries)
sleeping `2 + 4 + 8 = 14` seconds and gives the page up, and for every
fuel bound the outer loop is still running, having collected nothing,
advanced nothing and aborted nothing — enumeration never stays within the
3-retry budget and never aborts. -/
theorem onedrive_http_error_retries_forever
    (resp : Nat → Nat → ODResponse) (t : Nat)
    (hfail : ∀ a, resp t a = .httpError) :
    odRound (resp t) 0 maxRetries = (14, .giveUpPage)
    ∧ ∀ (n : Nat) (files : List String) (pc slp : Nat), pc < 100 →
        odFetchLoop resp n ⟨files, some t, pc, slp⟩ =
          .running ⟨files, some t, pc, slp + 14 * n⟩ := by
  have hround : odRound (resp t) 0 maxRetries = (14, .giveUpPage) := by
    simp [maxRetries, odRound, hfail 0, hfail 1, hfail 2, hfail 3]
  refine ⟨hround, ?_⟩
  intro n
  induction n with
  | zero => intro files pc slp _; simp [odFetchLoop]
  | succ m ih =>
    intro files pc slp hpc
    have hstep : odFetchLoop resp (m + 1) ⟨files, some t, pc, slp⟩ =
        odFetchLoop resp m ⟨files, some t, pc, slp + 14⟩ := by
      simp only [odFetchLoop, hround, if_pos hpc]
    rw [hstep, ih files pc (slp + 14) hpc]
    have harith : slp + 14 + 14 * m = slp + 14 * (m + 1) := by omega
    rw [harith]

/-! ## Lemmas about the Finder scanner -/

theorem mem_scanFolder (sha : List Nat → String) (folder : List RawFile)
    (d : FileInfo) :
    d ∈ scanFolder sha folder ↔ ∃ ext ∈ supportedExtensions, ∃ f ∈ folder,
      (strEndsWith f.name ext && f.readable) = true ∧ d = mkFinderDesc sha f := by
  have key : ∀ (exts : List String) (init : List FileInfo),
      d ∈ exts.foldl
        (fun acc ext =>
          acc ++ ((folder.filter (fun f => strEndsWith f.name ext && f.readable)).map
            (mkFinderDesc sha)))
        init ↔
      d ∈ init ∨ ∃ ext ∈ exts, ∃ f ∈ folder,
        (strEndsWith f.name ext && f.readable) = true ∧ d = mkFinderDesc sha f := by
    intro exts
    induction exts with
    | nil => intro init; simp
    | cons e rest ih =>
      intro init
      simp only [List.foldl_cons]
      rw [ih]
      constructor
      · rintro (h | h)
        · rcases List.mem_append.mp h with h2 | h2
          · exact Or.inl h2
          · obtain ⟨f, hf, hdf⟩ := List.mem_map.mp h2
            obtain ⟨hfm, hp⟩ := List.mem_filter.mp hf
            exact Or.inr ⟨e, by simp, f, hfm, hp, hdf.symm⟩
        · obtain ⟨ext, hext, f, hf, hp, hd⟩ := h
          exact Or.inr ⟨ext, by simp [hext], f, hf, hp, hd⟩
      · rintro (h | h)
        · exact Or.inl (List.mem_append_left _ h)
        · obtain ⟨ext, hext, f, hf, hp, hd⟩ := h
          rcases List.mem_cons.mp hext with he | he
          · rw [he] at hp
            exact Or.inl (List.mem_append_right _
              (List.mem_map.mpr ⟨f, List.mem_filter.mpr ⟨hf, hp⟩, hd.symm⟩))
          · exact Or.inr ⟨ext, he, f, hf, hp, hd⟩
  rw [scanFolder, key supportedExtensions []]
  simp

theorem mem_finderScan (sha : List Nat → String) (folders : List (List RawFile))
    (d : FileInfo) :
    d ∈ folders.foldl (fun acc folder => acc ++ scanFolder sha folder) [] ↔
      ∃ folder ∈ folders, d ∈ scanFolder sha folder := by
  have key : ∀ (fs : List (List RawFile)) (init : List FileInfo),
      d ∈ fs.foldl (fun acc folder => acc ++ scanFolder sha folder) init ↔
      d ∈ init ∨ ∃ folder ∈ fs, d ∈ scanFolder sha folder := by
    intro fs
    induction fs with
    | nil => intro init; simp
    | cons fl rest ih =>
      intro init
      simp only [List.foldl_cons]
      rw [ih]
      constructor
      · rintro (h | h)
        · rcases List.mem_append.mp h with h2 | h2
          · exact Or.inl h2
          · exact Or.inr ⟨fl, by simp, h2⟩
        · obtain ⟨fl2, hfl2, hd2⟩ := h
          exact Or.inr ⟨fl2, by simp [hfl2], hd2⟩
      · rintro (h | h)
        · exact Or.inl (List.mem_append_left _ h)
        · obtain ⟨fl2, hfl2, hd2⟩ := h
          rcases List.mem_cons.mp hfl2 with he | he
          · rw [he] at hd2
            exact Or.inl (List.mem_append_right _ hd2)
          · exact Or.inr ⟨fl2, he, hd2⟩
  rw [key folders []]
  simp

/-- **C10.**  Every list returned by the Finder adapter's `fetch_files` is
sorted by last-modified timestamp descending, every descriptor in it comes
from a readable scanned file and carries `file_hash = SHA-256(content)`
computed during enumeration (the digest function enters the model as the
parameter `sha`), and truncating the list to any prefix keeps only files at
least as recently modified as everything dropped. -/
theorem finder_fetch_sorted_recency_and_hashes (sha : List Nat → String)
    (folders : List (List RawFile)) :
    (finderFetchFiles sha folders).Sorted recencyGE
    ∧ (∀ d ∈ finderFetchFiles sha folders, ∃ folder ∈ folders, ∃ f ∈ folder,
        f.readable = true ∧ d = mkFinderDesc sha f
        ∧ d.fileHash = some (sha f.content))
    ∧ (∀ (n : Nat), ∀ a ∈ (finderFetchFiles sha folders).take n,
        ∀ b ∈ (finderFetchFiles sha folders).drop n,
        b.lastModified ≤ a.lastModified) := by
  have hsorted : (finderFetchFiles sha folders).Sorted recencyGE :=
    List.sorted_insertionSort recencyGE _
  refine ⟨hsorted, ?_, ?_⟩
  · intro d hd
    have hd' : d ∈ folders.foldl (fun acc folder => acc ++ scanFolder sha folder) [] :=
      (List.perm_insertionSort recencyGE _).mem_iff.mp hd
    obtain ⟨folder, hfolder, hdin⟩ := (mem_finderScan sha folders d).mp hd'
    obtain ⟨ext, _, f, hf, hp, hdf⟩ := (mem_scanFolder sha folder d).mp hdin
    refine ⟨folder, hfolder, f, hf, ?_, hdf, ?_⟩
    · exact (Bool.and_eq_true _ _).mp hp |>.2
    · rw [hdf]
      rfl
  · intro n a ha b hb
    have hpw : List.Pairwise recencyGE
        ((finderFetchFiles sha folders).take n ++
          (finderFetchFiles sha folders).drop n) := by
      rw [List.take_append_drop]
      exact hsorted
    exact (List.pairwise_append.mp hpw).2.2 a ha b hb

/-! ## Counterexample for the literal C2 statement -/

/-- **C2, counterexample.**  The claim as stated fails on the code when a
per-file error persists across both runs: with one fetched file whose
embedding call fails in both runs (the underlying files unchanged, and the
first run having committed a FileRecord for each file it indexed — it
indexed none), the second run returns `{indexed 0, skipped 0, errored 1,
total 1}`: it does create zero new FileRecords, but `skipped ≠ total`. -/
theorem sync_idempotence_fails_with_persistent_errors :
    (sync embedFailEnv "Finder" none emptyDb).1 = .ok ⟨0, 0, 1, 1⟩
    ∧ ((sync embedFailEnv "Finder" none emptyDb).2).files = []
    ∧ (sync embedFailEnv "Finder" none
        (sync embedFailEnv "Finder" none emptyDb).2).1 = .ok ⟨0, 0, 1, 1⟩
    ∧ ((sync embedFailEnv "Finder" none
        (sync embedFailEnv "Finder" none emptyDb).2).2).files = []
    ∧ ∀ o : Outcome, (sync embedFailEnv "Finder" none
        (sync embedFailEnv "Finder" none emptyDb).2).1 = .ok o →
        o.skipped ≠ o.total := by
  refine ⟨by decide, by decide, by decide, by decide, ?_⟩
  intro o ho
  have h3 : (sync embedFailEnv "Finder" none
      (sync embedFailEnv "Finder" none emptyDb).2).1 = .ok ⟨0, 0, 1, 1⟩ := by decide
  rw [h3] at ho
  have hoeq := Except.ok.inj ho
  rw [← hoeq]
  decide

/-! ## Witnesses -/

/-- Witness for C1 at a concrete state: the Finder lock is held, yet
`sync_source` runs the whole two-file sync and leaves the coordinator
untouched. -/
theorem sync_source_bypasses_coordinator_witness :
    "Finder" ∈ lockedState.coord.locked
    ∧ invoiceEnv.fetchResult = .ok [invoiceFile1, invoiceFile2]
    ∧ (lockedState.coord.startSync "Finder").1 = false
    ∧ (syncSource invoiceEnv lockedState "Finder").2.coord = lockedState.coord
    ∧ ∃ o : Outcome, (syncSource invoiceEnv lockedState "Finder").1 = .ok (.ok o)
        ∧ o.total = 2 := by
  have h := sync_source_bypasses_coordinator invoiceEnv lockedState
    [invoiceFile1, invoiceFile2] (by decide) rfl
  exact ⟨by decide, rfl, h.1, h.2.1, h.2.2⟩

/-- Witness for C2 on the spec's invoice scenario: first run
`{2,0,0,2}`, second run `{0,2,0,2}` with no new file rows. -/
theorem sync_second_run_all_skipped_witness :
    (sync invoiceEnv "Finder" none emptyDb).1 = .ok ⟨2, 0, 0, 2⟩
    ∧ ∃ db2, sync invoiceEnv "Finder" none (sync invoiceEnv "Finder" none emptyDb).2 =
        (.ok ⟨0, 2, 0, 2⟩, db2)
      ∧ db2.files = ((sync invoiceEnv "Finder" none emptyDb).2).files := by
  have h1 : (sync invoiceEnv "Finder" none emptyDb).1 = .ok ⟨2, 0, 0, 2⟩ := by decide
  have hrun1 : sync invoiceEnv "Finder" none emptyDb =
      (.ok ⟨2, 0, 0, 2⟩, (sync invoiceEnv "Finder" none emptyDb).2) := Prod.ext h1 rfl
  refine ⟨h1, ?_⟩
  exact sync_second_run_all_skipped invoiceEnv "Finder"
    [invoiceFile1, invoiceFile2] emptyDb ⟨2, 0, 0, 2⟩
    (sync invoiceEnv "Finder" none emptyDb).2 rfl (by decide)
    (by intro fi _ h _ r hr; simp [emptyDb] at hr) hrun1 rfl

/-- Witness for C3: an embedding failure leaves the table unchanged,
returns `False`, never calls `add_file`, and the loop iteration errors
while still having attempted the download. -/
theorem index_file_ledger_write_after_upsert_witness :
    (indexFile ⟨true, false, true⟩ emptyDb "Finder" reportFile "hr").1 = false
    ∧ (indexFile ⟨true, false, true⟩ emptyDb "Finder" reportFile "hr").2.1 = emptyDb
    ∧ Action.addFile ∉ (indexFile ⟨true, false, true⟩ emptyDb "Finder" reportFile "hr").2.2
    ∧ (processFile embedFailPerFile "Finder" emptyDb reportFile).1 = .erroredF
    ∧ (processFile embedFailPerFile "Finder" emptyDb reportFile).2.1 = emptyDb
    ∧ Action.download ∈ (processFile embedFailPerFile "Finder" emptyDb reportFile).2.2 := by
  have h := index_file_ledger_write_after_upsert ⟨true, false, true⟩ emptyDb
    "Finder" reportFile "hr"
  have h1 := h.1 (by decide)
  have h4 := h.2.2.2 embedFailPerFile rfl rfl rfl (by decide) (by decide) (by decide)
  exact ⟨h1.1, h1.2.1, h1.2.2, h4.1, h4.2.1, h4.2.2⟩

/-- Witness for C4: `notes.txt` reappears with a new hash while an active
row keeps the old hash — the iteration skips it and touches nothing. -/
theorem modified_file_skipped_not_reindexed_witness :
    oldRow ∈ modDb.files ∧ oldRow.fileHash = "oldhash"
    ∧ newNotes.fileHash = some "newhash"
    ∧ processFile allOkPerFile "Finder" modDb newNotes = (.skippedF, modDb, []) := by
  refine ⟨by decide, rfl, rfl, ?_⟩
  exact modified_file_skipped_not_reindexed allOkPerFile "Finder" modDb newNotes oldRow
    rfl (by decide) rfl rfl rfl
    (by intro h hh; rw [← Option.some.inj hh]; decide)

/-- Witness for C5 at an empty ledger (0 indexed files → cap 500). -/
theorem sync_all_adaptive_batch_witness :
    emptyDb.sourceEnabled "Finder" = true
    ∧ (syncAllStep ⟨true, invoiceEnv⟩ emptyDb "Finder").2.2 = some 500
    ∧ adaptiveMaxFiles 50 = 500 ∧ adaptiveMaxFiles 300 = 200
    ∧ adaptiveMaxFiles 1000 = 50 := by
  have h := sync_all_adaptive_batch ⟨true, invoiceEnv⟩ emptyDb "Finder" (by decide) rfl
  exact ⟨by decide, h.1, h.2.1, h.2.2.1, h.2.2.2⟩

/-- Witness for C6 on a connected Google Drive ledger, plus the Finder
no-op. -/
theorem disconnect_soft_deletes_witness :
    ((disconnectSource connDb "Google Drive").getFilesBySource "Google Drive" = []
    ∧ (disconnectSource connDb "Google Drive").getOauthToken "google_drive" = none
    ∧ (disconnectSource connDb "Google Drive").getSyncState "Google Drive" = none
    ∧ (disconnectSource connDb "Google Drive").statusOf "Google Drive" = "never_synced")
    ∧ disconnectSource connDb "Finder" = connDb := by
  have h := disconnect_soft_deletes connDb "Google Drive"
  have h2 := disconnect_soft_deletes connDb "Finder"
  obtain ⟨ha, _, hc, hd, he⟩ := h.1 (by decide)
  exact ⟨⟨ha, hc, hd, he⟩, h2.2 rfl⟩

/-- Witness for C7: a clean run partitions its two files, a raising
enumeration marks the source state `error`, and `sync_all` still records
an entry for an enabled, authenticated source. -/
theorem sync_counts_partition_and_source_error_witness :
    (∃ o db', sync invoiceEnv "Finder" none emptyDb = (.ok o, db')
      ∧ o.indexed + o.skipped + o.errors = o.total ∧ o.total = 2)
    ∧ (∃ db', sync failEnv "OneDrive" none emptyDb = (.error "boom", db')
      ∧ ∃ st, db'.getSyncState "OneDrive" = some st ∧ st.status = "error"
          ∧ st.errorMessage = some "boom")
    ∧ ∃ res, ("Finder", res) ∈ (syncAll (fun _ => ⟨true, invoiceEnv⟩) emptyDb).1 := by
  have hA := (sync_counts_partition_and_source_error invoiceEnv "Finder" none emptyDb).1
    [invoiceFile1, invoiceFile2] rfl
  have hB := (sync_counts_partition_and_source_error failEnv "OneDrive" none emptyDb).2.1
    "boom" rfl
  have hC := (sync_counts_partition_and_source_error invoiceEnv "Finder" none emptyDb).2.2
    (fun _ => ⟨true, invoiceEnv⟩) "Finder" (by decide) (by decide) rfl
  exact ⟨hA, hB, hC⟩

/-- Witness for C8: the soft-deleted `contract.pdf` row makes every sync
re-index the file, return `indexed == total`, and leave the table
unchanged with no active record under its hash. -/
theorem soft_deleted_hash_blocks_restore_witness :
    delRow.isDeleted = true
    ∧ processFile allOkPerFile "Google Drive" delDb cloudFile =
        (.indexedF, delDb, [.download, .embed, .upsert, .addFile])
    ∧ ∃ db', sync cloudEnv "Google Drive" none delDb = (.ok ⟨1, 0, 0, 1⟩, db')
        ∧ db'.files = delDb.files
        ∧ db'.getFileByHash "gdrive_c1" = none := by
  have h := soft_deleted_hash_blocks_restore cloudEnv "Google Drive" [cloudFile] delDb
    rfl (by decide)
    (by
      intro fi hfi
      simp only [List.mem_singleton] at hfi
      subst hfi
      exact ⟨"gdrive_c1", rfl, ⟨delRow, by decide, rfl, rfl⟩, by decide⟩)
    (by decide)
  obtain ⟨db', hs, hf, hg⟩ := h.2.2
  exact ⟨rfl, h.2.1 cloudFile (by decide), db', hs, hf,
    hg cloudFile (by decide) "gdrive_c1" rfl⟩

/-- Concrete evaluation of the Google Drive half: the page failing twice
still contributes its items once, the run sleeps `2 + 4 = 6` seconds, and
the exhausted page aborts the listing. -/
theorem gdrive_page_retry_backoff_witness :
    (∀ p ∈ wPages, p.1 ≤ maxRetries)
    ∧ gdriveFetchFiles wPages = (["a", "b", "c"], 6)
    ∧ (gdriveFetchFiles wPages).1.Nodup
    ∧ 2 + 4 ≤ (wPages.map (fun p => pageSleep p.1)).sum
    ∧ (∃ p ∈ wBadPages, maxRetries < p.1)
    ∧ (gdriveFetchFiles wBadPages).1 = [] := by
  have h := (gdrive_page_retry_backoff wPages).1 (by decide)
  have hbad := (gdrive_page_retry_backoff wBadPages).2 ⟨(4, ["x"]), by decide, by decide⟩
  exact ⟨by decide, h.1, h.2.1 (by decide), h.2.2 ["a", "b"] (by decide),
    ⟨(4, ["x"]), by decide, by decide⟩, hbad⟩

/-- Witness for C9 at the concrete failing input: every request for every
page returns a non-200 status; one round costs 4 attempts and 14 seconds,
and after 5 outer rounds the loop is still on the same page with 70
seconds slept, no files, no abort. -/
theorem onedrive_http_error_retries_forever_witness :
    odRound (badResp 0) 0 maxRetries = (14, .giveUpPage)
    ∧ odFetchLoop badResp 5 ⟨[], some 0, 0, 0⟩ = .running ⟨[], some 0, 0, 70⟩ := by
  have h := onedrive_http_error_retries_forever badResp 0 (fun _ => rfl)
  exact ⟨h.1, h.2 5 [] 0 0 (by decide)⟩

/-- Witness for C10 on a three-file folder: the unsupported `c.exe` is
filtered out, the result is newest-first, and `b.txt`'s descriptor carries
the digest of its bytes. -/
theorem finder_fetch_sorted_recency_and_hashes_witness :
    (finderFetchFiles lenSha [[rawA, rawB, rawC]]).Sorted recencyGE
    ∧ (finderFetchFiles lenSha [[rawA, rawB, rawC]]).map FileInfo.filename =
        ["b.txt", "a.pdf"]
    ∧ ∃ folder ∈ [[rawA, rawB, rawC]], ∃ f ∈ folder, f.readable = true
        ∧ mkFinderDesc lenSha rawB = mkFinderDesc lenSha f
        ∧ (mkFinderDesc lenSha rawB).fileHash = some (lenSha f.content) := by
  have h := finder_fetch_sorted_recency_and_hashes lenSha [[rawA, rawB, rawC]]
  refine ⟨h.1, by decide, ?_⟩
  obtain ⟨folder, hfolder, f, hf, hread, hdesc, hhash⟩ :=
    h.2.1 (mkFinderDesc lenSha rawB) (by decide)
  exact ⟨folder, hfolder, f, hf, hread, hdesc, hhash⟩

end Gnome
